import Mathlib

/-!
Verification of the contact classification and water-bridge inference engine
(`contact_calc/stratify_hbonds.py` and `contact_calc/contact_utils.py`).

Atom labels are modelled as Lean `String`s holding the canonical
colon-delimited form `"chain:resname:resid:name:index"`, exactly as the
Python code passes them around.  Python's substring test `tok in label`,
its `label.split(":")` field access, and its lexicographic string
comparison are each re-implemented below over `List Char` so that all
definitions are executable and kernel-reducible.

Python lists become Lean lists, dicts become association lists in key
insertion order, and sets become duplicate-free lists (insertion order,
which is irrelevant here because every set in the source is passed
through `sorted(...)` before use).  `sorted` is modelled by a stable
insertion sort over the same comparison the Python code sorts by.

Fallible code (the `raise ValueError` in `calc_water_to_residues_map`
and `math.acos`'s domain error) is modelled with `Except String`.  Float
arithmetic in the geometry primitives is idealised over `ℝ`, extended
with explicit NaN/infinity values where they can actually arise: the
angle primitive divides a numpy `float64` scalar (`np.dot` of numpy
coordinate arrays) by a float, and numpy scalar division by zero does
not raise — it yields NaN or a signed infinity under a `RuntimeWarning`.
-/

/-- One entry of a Python output row: the rows built by the stratifier mix an
integer frame index with string fields, so a row is a `List Fld`. -/
inductive Fld where
  | i (n : Nat)
  | s (v : String)
deriving DecidableEq

/-- A classified output row, e.g. `[frame_idx, "hbss", atom1_label, atom2_label]`. -/
abbrev Row := List Fld

/-- A raw contact record `[frame_idx, atom1_label, atom2_label, itype]`. -/
structure Contact where
  frame : Nat
  atom1 : String
  atom2 : String
  itype : String
deriving DecidableEq

/-- Does `pat` occur as a prefix of `l`? (helper for the substring test). -/
def prefMatch : List Char → List Char → Bool
  | [], _ => true
  | _ :: _, [] => false
  | a :: as, b :: bs => a == b && prefMatch as bs

/-- Does `pat` occur anywhere inside `l`? (helper for the substring test). -/
def subMatch (pat : List Char) : List Char → Bool
  | [] => prefMatch pat []
  | b :: bs => prefMatch pat (b :: bs) || subMatch pat bs

/-- Python's substring test `tok in hay` on strings. -/
def strContains (hay tok : String) : Bool := subMatch tok.data hay.data

/-- Python's `label.split(":")` over the character list of a label. -/
def splitFields : List Char → List (List Char)
  | [] => [[]]
  | c :: t =>
    match splitFields t with
    | [] => []
    | f :: rest => if c == ':' then [] :: f :: rest else (c :: f) :: rest

/-- `label.split(":")[3]`: the atom-name field of a canonical atom label.
Totalised with `""` for labels with fewer than four fields (the Python code
would raise `IndexError` there; every label in the spec's data model has
exactly five fields). -/
def atomName (label : String) : String := String.mk ((splitFields label.data).getD 3 [])

/-- Modelled from the spec: the spec's "residue-name field" of a canonical
`chain:resname:resid:name:index` atom label (spec §3, AtomLabel), i.e. field 1
of the colon-split form.  The source never extracts this field for solvent
recognition; the definition exists to state the spec's claimed routing rule. -/
def specResnameField (label : String) : String := String.mk ((splitFields label.data).getD 1 [])

/-- Python's `<` on strings: lexicographic comparison by code point. -/
def listStrLt : List Char → List Char → Bool
  | [], [] => false
  | [], _ :: _ => true
  | _ :: _, [] => false
  | a :: as, b :: bs => decide (a < b) || (a == b && listStrLt as bs)

/-- String strict order used by Python's `sorted` on labels. -/
def strLt (a b : String) : Bool := listStrLt a.data b.data

/-- Non-strict version of `strLt`. -/
def strLe (a b : String) : Bool := strLt a b || a == b

/-- Order on water–water pairs, matching Python tuple comparison. -/
def pairLe (p q : String × String) : Bool :=
  strLt p.1 q.1 || (p.1 == q.1 && strLe p.2 q.2)

/-- Order on one row field, matching Python comparison (a row position always
holds the same kind of field, so the mixed cases are never exercised). -/
def fldLt : Fld → Fld → Bool
  | .i n, .i m => decide (n < m)
  | .s a, .s b => strLt a b
  | .i _, .s _ => true
  | .s _, .i _ => false

/-- Lexicographic order on rows, matching Python tuple/list comparison. -/
def rowLe : Row → Row → Bool
  | [], _ => true
  | _ :: _, [] => false
  | a :: as, b :: bs => fldLt a b || (a == b && rowLe as bs)

/-- One step of the stable insertion sort modelling Python's `sorted`. -/
def insertSorted (le : α → α → Bool) (x : α) : List α → List α
  | [] => [x]
  | y :: t => if le x y then x :: y :: t else y :: insertSorted le x t

/-- Python's `sorted` (a stable sort; on the duplicate-free inputs sorted by
this development the result agrees with any sort by the same total order). -/
def pysorted (le : α → α → Bool) : List α → List α
  | [] => []
  | x :: t => insertSorted le x (pysorted le t)

/-- Python `set` accumulation: add an element unless already present. -/
def setInsert [DecidableEq α] (acc : List α) (x : α) : List α :=
  if x ∈ acc then acc else acc ++ [x]

/-- The contents of a Python `set` built by inserting the elements of `l` in
order (insertion order is kept; every consumer sorts afterwards). -/
def pysetOf [DecidableEq α] (l : List α) : List α := l.foldl setInsert []

/-- `residue_vs_water_hbonds` (stratify_hbonds.py, lines 33–45): split hbonds
into those involving residues only and those mediated by water.  The solvent
test is `solvent_resn in atomX_label`, a substring test on the whole label. -/
def residue_vs_water_hbonds (hbonds : List Contact) (solvent_resn : String) :
    List Contact × List Contact :=
  match hbonds with
  | [] => ([], [])
  | hbond :: t =>
    let r := residue_vs_water_hbonds t solvent_resn
    if strContains hbond.atom1 solvent_resn || strContains hbond.atom2 solvent_resn then
      (r.1, hbond :: r.2)
    else
      (hbond :: r.1, r.2)

/-- `backbone_atoms = ['N', 'O']` (stratify_hbonds.py, line 53). -/
def backbone_atoms : List String := ["N", "O"]

/-- `atomX in backbone_atoms`. -/
def isBackbone (a : String) : Bool := backbone_atoms.contains a

/-- Guard of the `hbss` branch: both atom names outside the backbone set. -/
def hbssCond (c : Contact) : Bool :=
  !(isBackbone (atomName c.atom1)) && !(isBackbone (atomName c.atom2))

/-- Guard of the `hbsb` branch: exactly one backbone atom name. -/
def hbsbCond (c : Contact) : Bool :=
  (!(isBackbone (atomName c.atom1)) && isBackbone (atomName c.atom2)) ||
    (isBackbone (atomName c.atom1) && !(isBackbone (atomName c.atom2)))

/-- Guard of the `hbbb` branch: both atom names in the backbone set. -/
def hbbbCond (c : Contact) : Bool :=
  isBackbone (atomName c.atom1) && isBackbone (atomName c.atom2)

/-- An `[frame_idx, tag, atom1_label, atom2_label]` output row. -/
def resRow (tag : String) (c : Contact) : Row :=
  [.i c.frame, .s tag, .s c.atom1, .s c.atom2]

/-- `stratify_residue_hbonds` (stratify_hbonds.py, lines 48–71): bin each
residue–residue hbond into sidechain-sidechain / sidechain-backbone /
backbone-backbone via the three independent `if` tests of the source. -/
def stratify_residue_hbonds : List Contact → List Row × List Row × List Row
  | [] => ([], [], [])
  | c :: t =>
    let r := stratify_residue_hbonds t
    (if hbssCond c then resRow "hbss" c :: r.1 else r.1,
     if hbsbCond c then resRow "hbsb" c :: r.2.1 else r.2.1,
     if hbbbCond c then resRow "hbbb" c :: r.2.2 else r.2.2)

/-- Is the head contact a "neither side solvent" contract violation? -/
def badContact (tok : String) (c : Contact) : Bool :=
  !(strContains c.atom1 tok) && !(strContains c.atom2 tok)

/-- Both sides of the contact match the solvent token. -/
def bothSolvent (tok : String) (c : Contact) : Bool :=
  strContains c.atom1 tok && strContains c.atom2 tok

/-- Exactly one side of the contact matches the solvent token. -/
def oneSolvent (tok : String) (c : Contact) : Bool :=
  (strContains c.atom1 tok && !(strContains c.atom2 tok)) ||
    (!(strContains c.atom1 tok) && strContains c.atom2 tok)

/-- `water_to_residues[water].add(protein)` on the insertion-ordered dict of
insertion-ordered duplicate-free value lists (contact_utils.py, lines 358–360). -/
def addToMap (m : List (String × List String)) (water protein : String) :
    List (String × List String) :=
  match m with
  | [] => [(water, [protein])]
  | (w, ps) :: t =>
    if w = water then (w, if protein ∈ ps then ps else ps ++ [protein]) :: t
    else (w, ps) :: addToMap t water protein

/-- The map update performed for a one-solvent contact: the matching side is
the water, the other side the protein atom (contact_utils.py, lines 349–354). -/
def addStep (tok : String) (m : List (String × List String)) (c : Contact) :
    List (String × List String) :=
  if strContains c.atom1 tok then addToMap m c.atom1 c.atom2 else addToMap m c.atom2 c.atom1

/-- The main loop of `calc_water_to_residues_map` (contact_utils.py, lines
342–360): walk the batch, accumulating the raw solvent–solvent pairs and the
water-to-residue map, raising on a neither-solvent contact.  `frame` carries
the Python loop variable `frame_idx` (initially 0, afterwards the frame of the
last contact seen). -/
def cwrmLoop (tok : String) (frame : Nat) (m : List (String × List String))
    (br : List (String × String)) :
    List Contact → Except String (Nat × List (String × List String) × List (String × String))
  | [] => .ok (frame, m, br)
  | c :: t =>
    if strContains c.atom1 tok && strContains c.atom2 tok then
      cwrmLoop tok c.frame m (br ++ [(c.atom1, c.atom2)]) t
    else if strContains c.atom1 tok && !(strContains c.atom2 tok) then
      cwrmLoop tok c.frame (addToMap m c.atom1 c.atom2) br t
    else if !(strContains c.atom1 tok) && strContains c.atom2 tok then
      cwrmLoop tok c.frame (addToMap m c.atom2 c.atom1) br t
    else
      .error "Solvent residue name can't be resolved"

/-- The dedup pass of `calc_water_to_residues_map` (contact_utils.py, lines
363–368): keep a raw pair unless either orientation was already kept. -/
def dedupBridges (acc : List (String × String)) :
    List (String × String) → List (String × String)
  | [] => acc
  | (w1, w2) :: t =>
    if (w1, w2) ∈ acc ∨ (w2, w1) ∈ acc then dedupBridges acc t
    else dedupBridges (acc ++ [(w1, w2)]) t

/-- `calc_water_to_residues_map` (contact_utils.py, lines 316–371). -/
def calc_water_to_residues_map (water_hbonds : List Contact) (solvent_resn : String) :
    Except String (Nat × List (String × List String) × List (String × String)) :=
  match cwrmLoop solvent_resn 0 [] [] water_hbonds with
  | .error e => .error e
  | .ok (frame, m, br) => .ok (frame, m, pysorted pairLe (dedupBridges [] br))

/-- All ordered pairs of positions `i < j` of a list, in the order produced by
Python's `itertools.combinations(l, 2)`. -/
def combinations2 : List α → List (α × α)
  | [] => []
  | x :: xs => xs.map (fun y => (x, y)) ++ combinations2 xs

/-- A `(frame_idx, "wb", res_atom1, res_atom2, water)` output row. -/
def wbRow (f : Nat) (r1 r2 w : String) : Row :=
  [.i f, .s "wb", .s r1, .s r2, .s w]

/-- The records `stratify_water_bridge` adds for one water of the map:
`itertools.combinations(sorted(list(water_to_residues[water])), 2)` with the
`res_atom1 != res_atom2` guard (stratify_hbonds.py, lines 82–87). -/
def wbBlock (frame : Nat) (p : String × List String) : List Row :=
  (combinations2 (pysorted strLe p.2)).filterMap
    (fun q => if q.1 ≠ q.2 then some (wbRow frame q.1 q.2 p.1) else none)

/-- `stratify_water_bridge` (stratify_hbonds.py, lines 74–90): infer direct
water bridges, collect them into a set, output the sorted set. -/
def stratify_water_bridge (water_hbonds : List Contact) (solvent_resn : String) :
    Except String (List Row) :=
  match calc_water_to_residues_map water_hbonds solvent_resn with
  | .error e => .error e
  | .ok (frame, w2r, _) => .ok (pysorted rowLe (pysetOf ((w2r.map (wbBlock frame)).flatten)))

/-- Python `water_to_residues[w]` guarded by `w in water_to_residues`. -/
def dictGet : List (String × List String) → String → Option (List String)
  | [], _ => none
  | (k, v) :: t, w => if k = w then some v else dictGet t w

/-- A `(frame_idx, "wb2", atom1, atom2, water1, water2)` output row.  The
Python assembly loop (stratify_hbonds.py, lines 112–114) unpacks each sorted
6-tuple positionally and re-appends the six components in the same positions
(the binder names used there are shifted, but the emitted order is the tuple
order), so the final rows keep exactly this field order. -/
def wb2Row (f : Nat) (a1 a2 w1 w2 : String) : Row :=
  [.i f, .s "wb2", .s a1, .s a2, .s w1, .s w2]

/-- The records `stratify_extended_water_bridge` adds for one deduplicated
solvent–solvent pair: skip the pair unless both waters are in the map, else
one record per (partner of water1) × (partner of water2)
(stratify_hbonds.py, lines 101–108). -/
def wb2Block (frame : Nat) (w2r : List (String × List String)) (p : String × String) :
    List Row :=
  match dictGet w2r p.1, dictGet w2r p.2 with
  | some ps1, some ps2 => (ps1.map (fun a1 => ps2.map (fun a2 => wb2Row frame a1 a2 p.1 p.2))).flatten
  | _, _ => []

/-- `stratify_extended_water_bridge` (stratify_hbonds.py, lines 93–116). -/
def stratify_extended_water_bridge (water_hbonds : List Contact) (solvent_resn : String) :
    Except String (List Row) :=
  match calc_water_to_residues_map water_hbonds solvent_resn with
  | .error e => .error e
  | .ok (frame, w2r, sb) => .ok (pysorted rowLe (pysetOf ((sb.map (wb2Block frame w2r)).flatten)))

/-- `stratify_hbond_subtypes` (stratify_hbonds.py, lines 119–145): the public
operation.  A `ValueError` escaping `calc_water_to_residues_map` propagates. -/
def stratify_hbond_subtypes (hbonds : List Contact) (solvent_resn : String) :
    Except String (List Row) :=
  let split := residue_vs_water_hbonds hbonds solvent_resn
  let r := stratify_residue_hbonds split.1
  match stratify_water_bridge split.2 solvent_resn,
      stratify_extended_water_bridge split.2 solvent_resn with
  | Except.error e, _ => Except.error e
  | _, Except.error e => Except.error e
  | Except.ok wb, Except.ok wb2 => Except.ok (r.1 ++ r.2.1 ++ r.2.2 ++ wb ++ wb2)

/-- A 3-vector of (idealised) floats, as handled by the geometry helpers. -/
@[ext]
structure Vec3 where
  x : ℝ
  y : ℝ
  z : ℝ

/-- The all-zero 3-vector. -/
def Vec3.zero : Vec3 := ⟨0, 0, 0⟩

/-- `np.dot(v1, v2)` on 3-vectors. -/
def dot3 (v w : Vec3) : ℝ := v.x * w.x + v.y * w.y + v.z * w.z

/-- `calc_vector_length` (contact_utils.py, lines 629–634):
`math.sqrt(np.dot(vector, vector))`. -/
noncomputable def calc_vector_length (v : Vec3) : ℝ := Real.sqrt (dot3 v v)

/-- A numpy `float64` value as it flows through the angle primitive: a finite
real, NaN (e.g. from `0.0 / 0.0`), or a signed infinity (from `x / 0.0` with
`x ≠ 0`). -/
inductive NpVal where
  | fin (x : ℝ)
  | nan
  | posInf
  | negInf

/-- Division of the numpy `float64` scalar `np.dot(v1, v2)` by the float
`|v1| * |v2|` (the coordinates come from `get_coord` as numpy arrays, so the
dot product is a numpy scalar).  Numpy scalar division by zero does **not**
raise `ZeroDivisionError`: it emits a `RuntimeWarning` and yields NaN for
`0.0 / 0.0` or a signed infinity otherwise. -/
noncomputable def npdiv (a b : ℝ) : NpVal :=
  if b = 0 then (if a = 0 then .nan else if 0 < a then .posInf else .negInf)
  else .fin (a / b)

/-- Python's `math.acos`: raises `math domain error` for finite inputs
outside `[-1, 1]` and for infinities, but returns NaN unchanged on NaN. -/
noncomputable def pyacos : NpVal → Except String NpVal
  | .nan => .ok .nan
  | .posInf => .error "math domain error"
  | .negInf => .error "math domain error"
  | .fin x =>
    if x < -1 ∨ 1 < x then .error "math domain error" else .ok (.fin (Real.arccos x))

/-- Python's `math.degrees`, which maps NaN and infinities to themselves. -/
noncomputable def pydegrees : NpVal → NpVal
  | .nan => .nan
  | .posInf => .posInf
  | .negInf => .negInf
  | .fin x => .fin (x * 180 / Real.pi)

/-- `calc_angle_between_vectors` (contact_utils.py, lines 637–647):
`math.degrees(math.acos(np.dot(v1, v2) / (|v1| * |v2|)))`.  The division
itself cannot fail (numpy semantics); only `math.acos` can raise. -/
noncomputable def calc_angle_between_vectors (v1 v2 : Vec3) : Except String NpVal :=
  match pyacos (npdiv (dot3 v1 v2) (calc_vector_length v1 * calc_vector_length v2)) with
  | .error e => .error e
  | .ok r => .ok (pydegrees r)

/-- The three residue-stratification guards are mutually exclusive and
exhaustive: every contact satisfies exactly one of them. -/
lemma conds_trichotomy (c : Contact) :
    (hbssCond c = true ∧ hbsbCond c = false ∧ hbbbCond c = false) ∨
    (hbssCond c = false ∧ hbsbCond c = true ∧ hbbbCond c = false) ∨
    (hbssCond c = false ∧ hbsbCond c = false ∧ hbbbCond c = true) := by
  unfold hbssCond hbsbCond hbbbCond
  cases h1 : isBackbone (atomName c.atom1) <;>
    cases h2 : isBackbone (atomName c.atom2) <;> simp

/-- The sidechain-sidechain bucket is the `hbssCond`-filter of the input. -/
lemma strat_res_fst (l : List Contact) :
    (stratify_residue_hbonds l).1 = (l.filter hbssCond).map (resRow "hbss") := by
  induction l with
  | nil => rfl
  | cons c t ih =>
    simp only [stratify_residue_hbonds, List.filter_cons]
    cases h : hbssCond c <;> simp [h, ih]

/-- The sidechain-backbone bucket is the `hbsbCond`-filter of the input. -/
lemma strat_res_snd (l : List Contact) :
    (stratify_residue_hbonds l).2.1 = (l.filter hbsbCond).map (resRow "hbsb") := by
  induction l with
  | nil => rfl
  | cons c t ih =>
    simp only [stratify_residue_hbonds, List.filter_cons]
    cases h : hbsbCond c <;> simp [h, ih]

/-- The backbone-backbone bucket is the `hbbbCond`-filter of the input. -/
lemma strat_res_thd (l : List Contact) :
    (stratify_residue_hbonds l).2.2 = (l.filter hbbbCond).map (resRow "hbbb") := by
  induction l with
  | nil => rfl
  | cons c t ih =>
    simp only [stratify_residue_hbonds, List.filter_cons]
    cases h : hbbbCond c <;> simp [h, ih]

/-- The three buckets' lengths sum to the input length. -/
lemma strat_res_length (l : List Contact) :
    (stratify_residue_hbonds l).1.length + (stratify_residue_hbonds l).2.1.length +
      (stratify_residue_hbonds l).2.2.length = l.length := by
  induction l with
  | nil => rfl
  | cons c t ih =>
    rcases conds_trichotomy c with ⟨h1, h2, h3⟩ | ⟨h1, h2, h3⟩ | ⟨h1, h2, h3⟩ <;>
      · simp only [stratify_residue_hbonds, h1, h2, h3, if_true, if_false,
          Bool.false_eq_true, List.length_cons]
        omega

/-- Claim C1: residue-residue stratification is an exhaustive partition.  Each
contact with both atom-name fields outside the backbone set `{N, O}` lands in
the sidechain-sidechain bucket, each with exactly one backbone name in the
sidechain-backbone bucket, each with both backbone names in the
backbone-backbone bucket; every contact lands in exactly one bucket (the three
guards are mutually exclusive and exhaustive and each bucket is exactly the
filter of its guard), and the three bucket lengths sum to the input length. -/
theorem claim_C1 (l : List Contact) :
    (stratify_residue_hbonds l).1 = (l.filter hbssCond).map (resRow "hbss")
    ∧ (stratify_residue_hbonds l).2.1 = (l.filter hbsbCond).map (resRow "hbsb")
    ∧ (stratify_residue_hbonds l).2.2 = (l.filter hbbbCond).map (resRow "hbbb")
    ∧ (∀ c ∈ l,
        (hbssCond c = true ∧ hbsbCond c = false ∧ hbbbCond c = false) ∨
        (hbssCond c = false ∧ hbsbCond c = true ∧ hbbbCond c = false) ∨
        (hbssCond c = false ∧ hbsbCond c = false ∧ hbbbCond c = true))
    ∧ (stratify_residue_hbonds l).1.length + (stratify_residue_hbonds l).2.1.length +
        (stratify_residue_hbonds l).2.2.length = l.length :=
  ⟨strat_res_fst l, strat_res_snd l, strat_res_thd l,
    fun c _ => conds_trichotomy c, strat_res_length l⟩

/-- Witness for C1, at the spec's §8 example input: an OD1–NH1 bond is pure
sidechain (`hbss`), an OD1–N bond has exactly one backbone name (`hbsb`),
and the bucket lengths sum to the input length 2. -/
theorem claim_C1_witness :
    ((hbssCond ⟨0, "A:ASP:12:OD1:100", "A:ARG:50:NH1:200", "hb"⟩ = true ∧
      hbsbCond ⟨0, "A:ASP:12:OD1:100", "A:ARG:50:NH1:200", "hb"⟩ = false ∧
      hbbbCond ⟨0, "A:ASP:12:OD1:100", "A:ARG:50:NH1:200", "hb"⟩ = false) ∨
     (hbssCond ⟨0, "A:ASP:12:OD1:100", "A:ARG:50:NH1:200", "hb"⟩ = false ∧
      hbsbCond ⟨0, "A:ASP:12:OD1:100", "A:ARG:50:NH1:200", "hb"⟩ = true ∧
      hbbbCond ⟨0, "A:ASP:12:OD1:100", "A:ARG:50:NH1:200", "hb"⟩ = false) ∨
     (hbssCond ⟨0, "A:ASP:12:OD1:100", "A:ARG:50:NH1:200", "hb"⟩ = false ∧
      hbsbCond ⟨0, "A:ASP:12:OD1:100", "A:ARG:50:NH1:200", "hb"⟩ = false ∧
      hbbbCond ⟨0, "A:ASP:12:OD1:100", "A:ARG:50:NH1:200", "hb"⟩ = true))
    ∧ (stratify_residue_hbonds
        [⟨0, "A:ASP:12:OD1:100", "A:ARG:50:NH1:200", "hb"⟩,
         ⟨0, "A:ASP:12:OD1:100", "A:ARG:50:N:200", "hb"⟩]).1.length +
      (stratify_residue_hbonds
        [⟨0, "A:ASP:12:OD1:100", "A:ARG:50:NH1:200", "hb"⟩,
         ⟨0, "A:ASP:12:OD1:100", "A:ARG:50:N:200", "hb"⟩]).2.1.length +
      (stratify_residue_hbonds
        [⟨0, "A:ASP:12:OD1:100", "A:ARG:50:NH1:200", "hb"⟩,
         ⟨0, "A:ASP:12:OD1:100", "A:ARG:50:N:200", "hb"⟩]).2.2.length = 2 := by
  have h := claim_C1
    [⟨0, "A:ASP:12:OD1:100", "A:ARG:50:NH1:200", "hb"⟩,
     ⟨0, "A:ASP:12:OD1:100", "A:ARG:50:N:200", "hb"⟩]
  exact ⟨h.2.2.2.1 _ (by simp), h.2.2.2.2⟩

/-- Claim C8: residue-residue classification is symmetric.  Swapping the two
atom labels of a contact leaves all three stratification guards, and hence the
bucket the contact is assigned to, unchanged. -/
theorem claim_C8 (f : Nat) (a1 a2 t : String) :
    hbssCond ⟨f, a1, a2, t⟩ = hbssCond ⟨f, a2, a1, t⟩
    ∧ hbsbCond ⟨f, a1, a2, t⟩ = hbsbCond ⟨f, a2, a1, t⟩
    ∧ hbbbCond ⟨f, a1, a2, t⟩ = hbbbCond ⟨f, a2, a1, t⟩
    ∧ (stratify_residue_hbonds [⟨f, a1, a2, t⟩]).1.length =
        (stratify_residue_hbonds [⟨f, a2, a1, t⟩]).1.length
    ∧ (stratify_residue_hbonds [⟨f, a1, a2, t⟩]).2.1.length =
        (stratify_residue_hbonds [⟨f, a2, a1, t⟩]).2.1.length
    ∧ (stratify_residue_hbonds [⟨f, a1, a2, t⟩]).2.2.length =
        (stratify_residue_hbonds [⟨f, a2, a1, t⟩]).2.2.length := by
  unfold hbssCond hbsbCond hbbbCond stratify_residue_hbonds
  cases h1 : isBackbone (atomName a1) <;> cases h2 : isBackbone (atomName a2) <;>
    simp [hbssCond, hbsbCond, hbbbCond, h1, h2]

/-- The split of `residue_vs_water_hbonds` is exactly the filter by the
full-label substring test. -/
lemma rvw_eq_filter (hbonds : List Contact) (tok : String) :
    residue_vs_water_hbonds hbonds tok =
      (hbonds.filter (fun c => !(strContains c.atom1 tok || strContains c.atom2 tok)),
       hbonds.filter (fun c => strContains c.atom1 tok || strContains c.atom2 tok)) := by
  induction hbonds with
  | nil => rfl
  | cons c t ih =>
    simp only [residue_vs_water_hbonds, List.filter_cons, ih]
    cases h : strContains c.atom1 tok || strContains c.atom2 tok <;> simp [h]

/-- Claim C2, amended: a contact is routed to the water path if and only if
the solvent token is a substring of the *entire* atom-label string
(`chain:resname:resid:name:index`) of at least one of its two atoms — not of
the residue-name field alone, as the claim states.  The two output lists are
exactly the corresponding filters of the input. -/
theorem claim_C2 (hbonds : List Contact) (tok : String) :
    residue_vs_water_hbonds hbonds tok =
      (hbonds.filter (fun c => !(strContains c.atom1 tok || strContains c.atom2 tok)),
       hbonds.filter (fun c => strContains c.atom1 tok || strContains c.atom2 tok)) :=
  rvw_eq_filter hbonds tok

/-- Counterexample to C2 as stated: with solvent token `"CA"`, the contact
`(0, "A:ALA:1:CA:2", "B:ALA:2:CB:7", "hb")` has the token in neither
residue-name field (both are `"ALA"`), yet the code routes it to the water
path, because the token occurs in the atom-name field of the full label. -/
theorem claim_C2_counterexample :
    residue_vs_water_hbonds [⟨0, "A:ALA:1:CA:2", "B:ALA:2:CB:7", "hb"⟩] "CA" =
      ([], [⟨0, "A:ALA:1:CA:2", "B:ALA:2:CB:7", "hb"⟩])
    ∧ specResnameField "A:ALA:1:CA:2" = "ALA"
    ∧ specResnameField "B:ALA:2:CB:7" = "ALA"
    ∧ strContains "ALA" "CA" = false := by
  refine ⟨?_, ?_, ?_, ?_⟩ <;> rfl

/-- On a batch with no neither-solvent contact, the map-builder loop returns
the frame of the last contact, the map folded over the one-solvent contacts,
and the raw pairs of the both-solvent contacts appended in order. -/
lemma cwrmLoop_ok_char (tok : String) (l : List Contact) :
    ∀ (f : Nat) (m : List (String × List String)) (br : List (String × String)),
      (∀ c ∈ l, badContact tok c = false) →
      cwrmLoop tok f m br l =
        .ok (l.foldl (fun _ c => c.frame) f,
             (l.filter (oneSolvent tok)).foldl (addStep tok) m,
             br ++ (l.filter (bothSolvent tok)).map (fun c => (c.atom1, c.atom2))) := by
  induction l with
  | nil => intro f m br _; simp [cwrmLoop]
  | cons c t ih =>
    intro f m br h
    have hc := h c (List.mem_cons_self c t)
    have ht : ∀ x ∈ t, badContact tok x = false := fun x hx => h x (List.mem_cons_of_mem c hx)
    cases h1 : strContains c.atom1 tok <;> cases h2 : strContains c.atom2 tok
    · simp [badContact, h1, h2] at hc
    · simp [cwrmLoop, h1, h2, oneSolvent, bothSolvent, addStep, List.filter_cons,
        ih _ _ _ ht]
    · simp [cwrmLoop, h1, h2, oneSolvent, bothSolvent, addStep, List.filter_cons,
        ih _ _ _ ht]
    · simp [cwrmLoop, h1, h2, oneSolvent, bothSolvent, List.filter_cons, ih _ _ _ ht]

/-- A batch containing a neither-solvent contact makes the loop raise. -/
lemma cwrmLoop_err (tok : String) (l : List Contact) :
    ∀ (f : Nat) (m : List (String × List String)) (br : List (String × String)),
      (∃ c ∈ l, badContact tok c = true) →
      cwrmLoop tok f m br l = .error "Solvent residue name can't be resolved" := by
  induction l with
  | nil => intro f m br h; obtain ⟨c, hc, _⟩ := h; cases hc
  | cons c t ih =>
    intro f m br h
    obtain ⟨d, hd, hbad⟩ := h
    cases h1 : strContains c.atom1 tok <;> cases h2 : strContains c.atom2 tok
    · simp [cwrmLoop, h1, h2]
    all_goals {
      rcases List.mem_cons.mp hd with rfl | hdt
      · simp [badContact, h1, h2] at hbad
      · simp only [cwrmLoop, h1, h2, Bool.true_and, Bool.false_and, Bool.and_true,
          Bool.and_false, Bool.not_true, Bool.not_false, if_true, if_false]
        exact ih _ _ _ ⟨d, hdt, hbad⟩ }

/-- `calc_water_to_residues_map` on a precondition-respecting batch. -/
lemma calc_ok_char (l : List Contact) (tok : String)
    (h : ∀ c ∈ l, badContact tok c = false) :
    calc_water_to_residues_map l tok =
      .ok (l.foldl (fun _ c => c.frame) 0,
           (l.filter (oneSolvent tok)).foldl (addStep tok) [],
           pysorted pairLe (dedupBridges []
             ((l.filter (bothSolvent tok)).map (fun c => (c.atom1, c.atom2))))) := by
  unfold calc_water_to_residues_map
  rw [cwrmLoop_ok_char tok l 0 [] [] h]
  simp

/-- `calc_water_to_residues_map` on a batch violating the precondition. -/
lemma calc_err_char (l : List Contact) (tok : String)
    (h : ∃ c ∈ l, badContact tok c = true) :
    calc_water_to_residues_map l tok = .error "Solvent residue name can't be resolved" := by
  unfold calc_water_to_residues_map
  rw [cwrmLoop_err tok l 0 [] [] h]

/-- Components of a successful `calc_water_to_residues_map` run. -/
lemma calc_ok_components (l : List Contact) (tok : String) (f : Nat)
    (m : List (String × List String)) (sb : List (String × String))
    (hok : calc_water_to_residues_map l tok = .ok (f, m, sb)) :
    f = l.foldl (fun _ c => c.frame) 0
    ∧ m = (l.filter (oneSolvent tok)).foldl (addStep tok) []
    ∧ sb = pysorted pairLe (dedupBridges []
        ((l.filter (bothSolvent tok)).map (fun c => (c.atom1, c.atom2)))) := by
  have h' : ∀ c ∈ l, badContact tok c = false := by
    by_cases hb : ∃ c ∈ l, badContact tok c = true
    · rw [calc_err_char l tok hb] at hok; cases hok
    · push_neg at hb
      exact fun c hc => by simpa using hb c hc
  rw [calc_ok_char l tok h'] at hok
  simp only [Except.ok.injEq, Prod.mk.injEq] at hok
  exact ⟨hok.1.symm, hok.2.1.symm, hok.2.2.symm⟩

/-- Claim C9: the map builder fails with the contract-violation error exactly
when the batch contains a contact where neither atom label matches the solvent
token; on success the water-to-residue map is accumulated from exactly the
one-solvent contacts (protein atom added under the water atom's key) and the
solvent-bridge list from exactly the both-solvent contacts. -/
theorem claim_C9 (l : List Contact) (tok : String) :
    ((∃ c ∈ l, badContact tok c = true) ↔
      calc_water_to_residues_map l tok = Except.error "Solvent residue name can't be resolved")
    ∧ (∀ f m sb, calc_water_to_residues_map l tok = Except.ok (f, m, sb) →
        m = (l.filter (oneSolvent tok)).foldl (addStep tok) []
        ∧ sb = pysorted pairLe (dedupBridges []
            ((l.filter (bothSolvent tok)).map (fun c => (c.atom1, c.atom2))))) := by
  constructor
  · constructor
    · exact calc_err_char l tok
    · intro he
      by_cases hb : ∃ c ∈ l, badContact tok c = true
      · exact hb
      · push_neg at hb
        have h' : ∀ c ∈ l, badContact tok c = false := fun c hc => by simpa using hb c hc
        rw [calc_ok_char l tok h'] at he
        cases he
  · intro f m sb hok
    exact (calc_ok_components l tok f m sb hok).2

/-- Witness for C9: a one-contact batch with a single one-solvent contact
succeeds, yielding a one-key map and no solvent bridges. -/
theorem claim_C9_witness :
    [("W:TIP3:1:OH2:2", ["A:ALA:3:N:4"])] =
      ([(⟨0, "W:TIP3:1:OH2:2", "A:ALA:3:N:4", "hb"⟩ : Contact)].filter
        (oneSolvent "TIP3")).foldl (addStep "TIP3") []
    ∧ ([] : List (String × String)) = pysorted pairLe (dedupBridges []
        (([(⟨0, "W:TIP3:1:OH2:2", "A:ALA:3:N:4", "hb"⟩ : Contact)].filter
          (bothSolvent "TIP3")).map (fun c => (c.atom1, c.atom2)))) :=
  (claim_C9 [⟨0, "W:TIP3:1:OH2:2", "A:ALA:3:N:4", "hb"⟩] "TIP3").2 0
    [("W:TIP3:1:OH2:2", ["A:ALA:3:N:4"])] [] rfl

/-- Inserting into a sorted list is a permutation of consing. -/
lemma insertSorted_perm (le : α → α → Bool) (x : α) (l : List α) :
    (insertSorted le x l).Perm (x :: l) := by
  induction l with
  | nil => exact List.Perm.refl _
  | cons y t ih =>
    simp only [insertSorted]
    by_cases h : le x y = true
    · simp [h]
    · simp only [h, if_false]
      exact ((ih.cons y).trans (List.Perm.swap x y t))

/-- The model of Python's `sorted` permutes its input. -/
lemma pysorted_perm (le : α → α → Bool) (l : List α) : (pysorted le l).Perm l := by
  induction l with
  | nil => exact List.Perm.refl _
  | cons x t ih => exact (insertSorted_perm le x (pysorted le t)).trans (ih.cons x)

/-- Elements already kept stay kept by the bridge dedup pass. -/
lemma dedup_acc_mono (raw : List (String × String)) :
    ∀ acc x, x ∈ acc → x ∈ dedupBridges acc raw := by
  induction raw with
  | nil => intro acc x hx; exact hx
  | cons p t ih =>
    intro acc x hx
    obtain ⟨w1, w2⟩ := p
    simp only [dedupBridges]
    by_cases h : (w1, w2) ∈ acc ∨ (w2, w1) ∈ acc
    · simp only [h, if_true]; exact ih acc x hx
    · simp only [h, if_false]; exact ih _ x (List.mem_append_left _ hx)

/-- Everything the dedup pass keeps comes from the accumulator or the input. -/
lemma dedup_sub (raw : List (String × String)) :
    ∀ acc x, x ∈ dedupBridges acc raw → x ∈ acc ∨ x ∈ raw := by
  induction raw with
  | nil => intro acc x hx; exact Or.inl hx
  | cons p t ih =>
    intro acc x hx
    obtain ⟨w1, w2⟩ := p
    simp only [dedupBridges] at hx
    by_cases h : (w1, w2) ∈ acc ∨ (w2, w1) ∈ acc
    · rw [if_pos h] at hx
      rcases ih acc x hx with h' | h'
      · exact Or.inl h'
      · exact Or.inr (List.mem_cons_of_mem _ h')
    · rw [if_neg h] at hx
      rcases ih _ x hx with h' | h'
      · rcases List.mem_append.mp h' with h'' | h''
        · exact Or.inl h''
        · simp only [List.mem_singleton] at h''
          exact Or.inr (h'' ▸ List.mem_cons_self _ _)
      · exact Or.inr (List.mem_cons_of_mem _ h')

/-- The dedup pass keeps each pair at most once. -/
lemma dedup_nodup (raw : List (String × String)) :
    ∀ acc, acc.Nodup → (dedupBridges acc raw).Nodup := by
  induction raw with
  | nil => intro acc h; exact h
  | cons p t ih =>
    intro acc h
    obtain ⟨w1, w2⟩ := p
    simp only [dedupBridges]
    by_cases hmem : (w1, w2) ∈ acc ∨ (w2, w1) ∈ acc
    · simp only [hmem, if_true]; exact ih acc h
    · simp only [hmem, if_false]
      refine ih _ (List.Nodup.append h (List.nodup_singleton _) ?_)
      intro x hx hx'
      simp only [List.mem_singleton] at hx'
      exact hmem (Or.inl (hx' ▸ hx))

/-- The dedup pass never keeps both orientations of a genuine pair. -/
lemma dedup_noswap (raw : List (String × String)) :
    ∀ acc, (∀ a b, (a, b) ∈ acc → (b, a) ∈ acc → a = b) →
      ∀ a b, (a, b) ∈ dedupBridges acc raw → (b, a) ∈ dedupBridges acc raw → a = b := by
  induction raw with
  | nil => intro acc h a b h1 h2; exact h a b h1 h2
  | cons p t ih =>
    intro acc h a b h1 h2
    obtain ⟨w1, w2⟩ := p
    simp only [dedupBridges] at h1 h2
    by_cases hmem : (w1, w2) ∈ acc ∨ (w2, w1) ∈ acc
    · rw [if_pos hmem] at h1 h2
      exact ih acc h a b h1 h2
    · rw [if_neg hmem] at h1 h2
      refine ih _ ?_ a b h1 h2
      intro x y hx hy
      rcases List.mem_append.mp hx with hx' | hx' <;>
        rcases List.mem_append.mp hy with hy' | hy'
      · exact h x y hx' hy'
      · simp only [List.mem_singleton, Prod.mk.injEq] at hy'
        exact absurd (hy'.2 ▸ hy'.1 ▸ hx' : (w2, w1) ∈ acc) (fun hc => hmem (Or.inr hc))
      · simp only [List.mem_singleton, Prod.mk.injEq] at hx'
        exact absurd (hx'.2 ▸ hx'.1 ▸ hy' : (w2, w1) ∈ acc) (fun hc => hmem (Or.inr hc))
      · simp only [List.mem_singleton, Prod.mk.injEq] at hx' hy'
        rw [hx'.1, hy'.1]

/-- Every raw pair survives the dedup pass in one orientation or the other. -/
lemma dedup_complete (raw : List (String × String)) :
    ∀ acc a b, (a, b) ∈ raw →
      (a, b) ∈ dedupBridges acc raw ∨ (b, a) ∈ dedupBridges acc raw := by
  induction raw with
  | nil => intro acc a b h; cases h
  | cons p t ih =>
    intro acc a b h
    obtain ⟨w1, w2⟩ := p
    simp only [dedupBridges]
    by_cases hmem : (w1, w2) ∈ acc ∨ (w2, w1) ∈ acc
    · simp only [hmem, if_true]
      rcases List.mem_cons.mp h with heq | ht
      · obtain ⟨h1, h2⟩ := Prod.mk.injEq .. ▸ heq
        subst h1; subst h2
        rcases hmem with hm | hm
        · exact Or.inl (dedup_acc_mono t acc _ hm)
        · exact Or.inr (dedup_acc_mono t acc _ hm)
      · exact ih acc a b ht
    · simp only [hmem, if_false]
      rcases List.mem_cons.mp h with heq | ht
      · obtain ⟨h1, h2⟩ := Prod.mk.injEq .. ▸ heq
        subst h1; subst h2
        exact Or.inl (dedup_acc_mono t _ _ (List.mem_append_right _ (List.mem_singleton_self _)))
      · exact ih _ a b ht

/-- The orientation kept by the dedup pass is the first occurrence of the
unordered pair in the raw list, provided the accumulator holds neither
orientation yet. -/
lemma dedup_first (raw : List (String × String)) :
    ∀ acc a b q, (∀ x ∈ acc, x ≠ (a, b) ∧ x ≠ (b, a)) →
      raw.find? (fun p => p == (a, b) || p == (b, a)) = some q →
      q ∈ dedupBridges acc raw := by
  induction raw with
  | nil => intro acc a b q _ hf; cases hf
  | cons p t ih =>
    intro acc a b q hacc hf
    obtain ⟨w1, w2⟩ := p
    rw [List.find?_cons] at hf
    cases hp : ((w1, w2) == (a, b) || (w1, w2) == (b, a)) with
    | true =>
      simp only [hp] at hf
      obtain rfl : (w1, w2) = q := by injection hf
      simp only [dedupBridges]
      have hp2 := hp
      simp only [Bool.or_eq_true] at hp2
      have hmem : ¬((w1, w2) ∈ acc ∨ (w2, w1) ∈ acc) := by
        intro hc
        rcases hp2 with hp' | hp'
        all_goals {
          obtain ⟨rfl, rfl⟩ := Prod.mk.injEq .. ▸ (eq_of_beq hp')
          rcases hc with hc' | hc' <;>
            first
            | exact absurd rfl ((hacc _ hc').1)
            | exact absurd rfl ((hacc _ hc').2)
        }
      simp only [hmem, if_false]
      exact dedup_acc_mono t _ _ (List.mem_append_right _ (List.mem_singleton_self _))
    | false =>
      simp only [hp] at hf
      have hne : (w1, w2) ≠ (a, b) ∧ (w1, w2) ≠ (b, a) := by
        constructor <;> intro hc <;> rw [hc] at hp <;> simp at hp
      simp only [dedupBridges]
      by_cases hmem : (w1, w2) ∈ acc ∨ (w2, w1) ∈ acc
      · simp only [hmem, if_true]; exact ih acc a b q hacc hf
      · simp only [hmem, if_false]
        refine ih _ a b q ?_ hf
        intro x hx
        rcases List.mem_append.mp hx with hx' | hx'
        · exact hacc x hx'
        · simp only [List.mem_singleton] at hx'
          exact hx' ▸ hne

/-- Claim C4, amended: for every input batch containing both orientations
`(w1, w2)` and `(w2, w1)` of a water–water hydrogen bond, the returned
solvent-bridge list contains exactly one entry for that unordered pair (the
list is duplicate-free and holds exactly one of the two orientations); the
orientation kept is that of the pair's **first occurrence** among the
both-solvent contacts of the batch — not necessarily the lexicographic
orientation, as the claim states. -/
theorem claim_C4 (l : List Contact) (tok : String) (f : Nat)
    (m : List (String × List String)) (sb : List (String × String)) (w1 w2 : String)
    (hok : calc_water_to_residues_map l tok = .ok (f, m, sb))
    (hne : w1 ≠ w2)
    (h1 : (w1, w2) ∈ (l.filter (bothSolvent tok)).map (fun c => (c.atom1, c.atom2)))
    (_h2 : (w2, w1) ∈ (l.filter (bothSolvent tok)).map (fun c => (c.atom1, c.atom2))) :
    sb.Nodup
    ∧ (((w1, w2) ∈ sb ∧ (w2, w1) ∉ sb) ∨ ((w2, w1) ∈ sb ∧ (w1, w2) ∉ sb))
    ∧ ∀ q, ((l.filter (bothSolvent tok)).map (fun c => (c.atom1, c.atom2))).find?
        (fun p => p == (w1, w2) || p == (w2, w1)) = some q → q ∈ sb := by
  obtain ⟨-, -, hsb⟩ := calc_ok_components l tok f m sb hok
  subst hsb
  have hperm := pysorted_perm pairLe
    (dedupBridges [] ((l.filter (bothSolvent tok)).map (fun c => (c.atom1, c.atom2))))
  have hnodup := dedup_nodup
    ((l.filter (bothSolvent tok)).map (fun c => (c.atom1, c.atom2))) [] List.nodup_nil
  refine ⟨hperm.nodup_iff.mpr hnodup, ?_, ?_⟩
  · have hnoswap := dedup_noswap
      ((l.filter (bothSolvent tok)).map (fun c => (c.atom1, c.atom2))) []
      (fun a b h _ => absurd h (List.not_mem_nil _))
    rcases dedup_complete _ [] w1 w2 h1 with hA | hA
    · exact Or.inl ⟨hperm.mem_iff.mpr hA,
        fun hc => hne (hnoswap w1 w2 hA (hperm.mem_iff.mp hc))⟩
    · exact Or.inr ⟨hperm.mem_iff.mpr hA,
        fun hc => hne (hnoswap w1 w2 (hperm.mem_iff.mp hc) hA)⟩
  · intro q hq
    exact hperm.mem_iff.mpr
      (dedup_first _ [] w1 w2 q (fun x hx => absurd hx (List.not_mem_nil _)) hq)

/-- Witness for C4: a two-contact batch holding both orientations of the same
water–water bond yields a single solvent-bridge entry, in the orientation of
the first occurrence. -/
theorem claim_C4_witness :
    ([("W:TIP3:2:OH2:9", "W:TIP3:1:OH2:8")] : List (String × String)).Nodup
    ∧ ((("W:TIP3:1:OH2:8", "W:TIP3:2:OH2:9") ∈
          [("W:TIP3:2:OH2:9", "W:TIP3:1:OH2:8")] ∧
        ("W:TIP3:2:OH2:9", "W:TIP3:1:OH2:8") ∉
          ([("W:TIP3:2:OH2:9", "W:TIP3:1:OH2:8")] : List (String × String))) ∨
       (("W:TIP3:2:OH2:9", "W:TIP3:1:OH2:8") ∈
          ([("W:TIP3:2:OH2:9", "W:TIP3:1:OH2:8")] : List (String × String)) ∧
        ("W:TIP3:1:OH2:8", "W:TIP3:2:OH2:9") ∉
          ([("W:TIP3:2:OH2:9", "W:TIP3:1:OH2:8")] : List (String × String))))
    ∧ ∀ q, ((([⟨0, "W:TIP3:2:OH2:9", "W:TIP3:1:OH2:8", "hb"⟩,
               ⟨0, "W:TIP3:1:OH2:8", "W:TIP3:2:OH2:9", "hb"⟩] : List Contact).filter
                (bothSolvent "TIP3")).map (fun c => (c.atom1, c.atom2))).find?
          (fun p => p == ("W:TIP3:1:OH2:8", "W:TIP3:2:OH2:9") ||
            p == ("W:TIP3:2:OH2:9", "W:TIP3:1:OH2:8")) = some q →
        q ∈ [("W:TIP3:2:OH2:9", "W:TIP3:1:OH2:8")] :=
  claim_C4
    [⟨0, "W:TIP3:2:OH2:9", "W:TIP3:1:OH2:8", "hb"⟩,
     ⟨0, "W:TIP3:1:OH2:8", "W:TIP3:2:OH2:9", "hb"⟩] "TIP3" 0 []
    [("W:TIP3:2:OH2:9", "W:TIP3:1:OH2:8")] "W:TIP3:1:OH2:8" "W:TIP3:2:OH2:9"
    rfl (by decide) (by decide) (by decide)

/-- Counterexample to C4 as stated: the batch holds both orientations of the
water–water bond between `W:TIP3:1:OH2:8` and `W:TIP3:2:OH2:9`, the first
occurrence being `(water2, water1)`.  The returned solvent-bridge list keeps
exactly that first-seen orientation, which is **not** lexicographically
ordered (the first label of the kept pair is the larger one). -/
theorem claim_C4_counterexample :
    calc_water_to_residues_map
      [⟨0, "W:TIP3:2:OH2:9", "W:TIP3:1:OH2:8", "hb"⟩,
       ⟨0, "W:TIP3:1:OH2:8", "W:TIP3:2:OH2:9", "hb"⟩] "TIP3" =
      .ok (0, [], [("W:TIP3:2:OH2:9", "W:TIP3:1:OH2:8")])
    ∧ strLt "W:TIP3:1:OH2:8" "W:TIP3:2:OH2:9" = true := ⟨rfl, rfl⟩

/-- Folding Python set insertion over a list with no duplicates relative to
the accumulator just appends the list. -/
lemma setFold_eq_append [DecidableEq α] :
    ∀ (l acc : List α), (acc ++ l).Nodup → l.foldl setInsert acc = acc ++ l := by
  intro l
  induction l with
  | nil => intro acc _; simp
  | cons x t ih =>
    intro acc h
    have hx : x ∉ acc := by
      rcases List.nodup_append.mp h with ⟨-, -, hdisj⟩
      exact fun hc => hdisj hc (List.mem_cons_self x t)
    have : setInsert acc x = acc ++ [x] := by simp [setInsert, hx]
    rw [List.foldl_cons, this, ih (acc ++ [x]) (by simpa using h)]
    simp

/-- On a duplicate-free list, the Python set keeps exactly the list. -/
lemma pysetOf_eq_self [DecidableEq α] (l : List α) (h : l.Nodup) : pysetOf l = l :=
  setFold_eq_append l [] (by simpa using h)

/-- Every element of the Python set comes from the inserted list. -/
lemma setFold_sub [DecidableEq α] :
    ∀ (l acc : List α) (x : α), x ∈ l.foldl setInsert acc → x ∈ acc ∨ x ∈ l := by
  intro l
  induction l with
  | nil => intro acc x h; exact Or.inl h
  | cons y t ih =>
    intro acc x h
    rw [List.foldl_cons] at h
    rcases ih _ x h with h' | h'
    · by_cases hy : y ∈ acc
      · simp only [setInsert, hy, if_true] at h'
        exact Or.inl h'
      · simp only [setInsert, hy, if_false] at h'
        rcases List.mem_append.mp h' with h'' | h''
        · exact Or.inl h''
        · simp only [List.mem_singleton] at h''
          exact Or.inr (h'' ▸ List.mem_cons_self _ _)
    · exact Or.inr (List.mem_cons_of_mem _ h')

/-- Membership in the modelled Python set implies membership in the source. -/
lemma pysetOf_sub [DecidableEq α] (l : List α) (x : α) (h : x ∈ pysetOf l) : x ∈ l := by
  rcases setFold_sub l [] x h with h' | h'
  · cases h'
  · exact h'

/-- Both components of a pair produced by `combinations2` come from the list. -/
lemma comb2_mem : ∀ (l : List α) (p : α × α), p ∈ combinations2 l → p.1 ∈ l ∧ p.2 ∈ l := by
  intro l
  induction l with
  | nil => intro p h; cases h
  | cons x xs ih =>
    intro p h
    rcases List.mem_append.mp h with h' | h'
    · obtain ⟨y, hy, rfl⟩ := List.mem_map.mp h'
      exact ⟨List.mem_cons_self _ _, List.mem_cons_of_mem _ hy⟩
    · obtain ⟨h1, h2⟩ := ih p h'
      exact ⟨List.mem_cons_of_mem _ h1, List.mem_cons_of_mem _ h2⟩

/-- On a duplicate-free list, every pair of `combinations2` has distinct
components. -/
lemma comb2_ne : ∀ (l : List α), l.Nodup → ∀ p ∈ combinations2 l, p.1 ≠ p.2 := by
  intro l
  induction l with
  | nil => intro _ p h; cases h
  | cons x xs ih =>
    intro hnd p h
    obtain ⟨hx, hxs⟩ := List.nodup_cons.mp hnd
    rcases List.mem_append.mp h with h' | h'
    · obtain ⟨y, hy, rfl⟩ := List.mem_map.mp h'
      intro hc
      exact hx (by rw [show x = y from hc]; exact hy)
    · exact ih hxs p h'

/-- `combinations2` yields `C(n, 2)` pairs. -/
lemma comb2_length : ∀ (l : List α), (combinations2 l).length = Nat.choose l.length 2 := by
  intro l
  induction l with
  | nil => rfl
  | cons x xs ih =>
    simp only [combinations2, List.length_append, List.length_map, ih, List.length_cons,
      Nat.choose_succ_succ, Nat.choose_one_right]

/-- On a duplicate-free list, `combinations2` has no duplicate pairs. -/
lemma comb2_nodup : ∀ (l : List α), l.Nodup → (combinations2 l).Nodup := by
  intro l
  induction l with
  | nil => intro _; exact List.nodup_nil
  | cons x xs ih =>
    intro hnd
    obtain ⟨hx, hxs⟩ := List.nodup_cons.mp hnd
    refine List.Nodup.append ?_ (ih hxs) ?_
    · exact hxs.map (fun a b hab => by injection hab)
    · intro p hp hp'
      obtain ⟨y, hy, rfl⟩ := List.mem_map.mp hp
      exact hx ((comb2_mem xs (x, y) hp').1)

/-- Invariant of the water-to-residue map: keys are distinct solvent labels,
values are nonempty duplicate-free lists of non-solvent labels. -/
def MapInv (tok : String) (m : List (String × List String)) : Prop :=
  (m.map Prod.fst).Nodup ∧
    ∀ p ∈ m, p.2 ≠ [] ∧ p.2.Nodup ∧ strContains p.1 tok = true ∧
      ∀ a ∈ p.2, strContains a tok = false

/-- Keys after a map update are old keys or the inserted water. -/
lemma addToMap_keys_sub :
    ∀ (m : List (String × List String)) (w p k : String),
      k ∈ (addToMap m w p).map Prod.fst → k ∈ m.map Prod.fst ∨ k = w := by
  intro m
  induction m with
  | nil =>
    intro w p k h
    simp only [addToMap, List.map_cons, List.map_nil] at h
    exact Or.inr (by simpa using h)
  | cons q t ih =>
    intro w p k h
    obtain ⟨kq, vq⟩ := q
    simp only [addToMap] at h
    by_cases hk : kq = w
    · simp only [hk, if_true, List.map_cons] at h
      rcases List.mem_cons.mp h with h' | h'
      · exact Or.inr h'
      · exact Or.inl (List.mem_cons_of_mem _ (by simpa using h'))
    · simp only [hk, if_false, List.map_cons] at h
      rcases List.mem_cons.mp h with h' | h'
      · exact Or.inl (h' ▸ List.mem_cons_self _ _)
      · rcases ih w p k h' with h'' | h''
        · exact Or.inl (List.mem_cons_of_mem _ h'')
        · exact Or.inr h''

/-- The map update preserves the map invariant when inserting a solvent water
key and a non-solvent protein atom. -/
lemma addToMap_inv (tok : String) :
    ∀ (m : List (String × List String)) (w p : String), MapInv tok m →
      strContains w tok = true → strContains p tok = false →
      MapInv tok (addToMap m w p) := by
  intro m
  induction m with
  | nil =>
    intro w p _ hw hp
    refine ⟨by simp [addToMap], ?_⟩
    intro q hq
    simp only [addToMap, List.mem_singleton] at hq
    subst hq
    exact ⟨by simp, List.nodup_singleton _, hw, by simpa using hp⟩
  | cons q t ih =>
    intro w p hm hw hp
    obtain ⟨kq, vq⟩ := q
    obtain ⟨hkeys, hvals⟩ := hm
    rw [List.map_cons] at hkeys
    obtain ⟨hk1, hk2⟩ := List.nodup_cons.mp hkeys
    have hhead := hvals (kq, vq) (List.mem_cons_self _ _)
    have htail : MapInv tok t := ⟨hk2, fun r hr => hvals r (List.mem_cons_of_mem _ hr)⟩
    by_cases hkw : kq = w
    · subst hkw
      have hunf : addToMap ((kq, vq) :: t) kq p =
          (kq, if p ∈ vq then vq else vq ++ [p]) :: t := by
        simp [addToMap]
      rw [hunf]
      refine ⟨by rw [List.map_cons]; exact List.nodup_cons.mpr ⟨hk1, hk2⟩, ?_⟩
      intro r hr
      rcases List.mem_cons.mp hr with rfl | hr'
      · by_cases hpv : p ∈ vq
        · simp only [hpv, if_true]
          exact hhead
        · simp only [hpv, if_false]
          refine ⟨by simp, ?_, hhead.2.2.1, ?_⟩
          · exact List.Nodup.append hhead.2.1 (List.nodup_singleton _)
              (fun x hx hx' => hpv ((List.mem_singleton.mp hx') ▸ hx))
          · intro a ha
            rcases List.mem_append.mp ha with ha' | ha'
            · exact hhead.2.2.2 a ha'
            · exact (List.mem_singleton.mp ha') ▸ hp
      · exact hvals r (List.mem_cons_of_mem _ hr')
    · have hrec := ih w p htail hw hp
      have hunf : addToMap ((kq, vq) :: t) w p = (kq, vq) :: addToMap t w p := by
        simp [addToMap, hkw]
      rw [hunf]
      refine ⟨?_, ?_⟩
      · rw [List.map_cons]
        refine List.nodup_cons.mpr ⟨?_, hrec.1⟩
        intro hc
        rcases addToMap_keys_sub t w p kq hc with h' | h'
        · exact hk1 h'
        · exact hkw h'
      · intro r hr
        rcases List.mem_cons.mp hr with rfl | hr'
        · exact hhead
        · exact hrec.2 r hr'

/-- The map-builder loop preserves the map invariant. -/
lemma cwrmLoop_map_inv (tok : String) :
    ∀ (l : List Contact) (f : Nat) (m : List (String × List String))
      (br : List (String × String)) (f' : Nat) (m' : List (String × List String))
      (br' : List (String × String)),
      MapInv tok m → cwrmLoop tok f m br l = .ok (f', m', br') → MapInv tok m' := by
  intro l
  induction l with
  | nil =>
    intro f m br f' m' br' hm hok
    simp only [cwrmLoop, Except.ok.injEq, Prod.mk.injEq] at hok
    exact hok.2.1 ▸ hm
  | cons c t ih =>
    intro f m br f' m' br' hm hok
    cases h1 : strContains c.atom1 tok <;> cases h2 : strContains c.atom2 tok <;>
      simp only [cwrmLoop, h1, h2, Bool.true_and, Bool.false_and, Bool.and_true,
        Bool.and_false, Bool.not_true, Bool.not_false, if_true, if_false] at hok
    · cases hok
    · exact ih _ _ _ _ _ _ (addToMap_inv tok m c.atom2 c.atom1 hm h2 h1) hok
    · exact ih _ _ _ _ _ _ (addToMap_inv tok m c.atom1 c.atom2 hm h1 h2) hok
    · exact ih _ _ _ _ _ _ hm hok

/-- A successful `calc_water_to_residues_map` run yields an invariant map. -/
lemma calc_map_inv (l : List Contact) (tok : String) (f : Nat)
    (m : List (String × List String)) (sb : List (String × String))
    (hok : calc_water_to_residues_map l tok = .ok (f, m, sb)) : MapInv tok m := by
  unfold calc_water_to_residues_map at hok
  cases h : cwrmLoop tok 0 [] [] l with
  | error e => rw [h] at hok; cases hok
  | ok v =>
    obtain ⟨f0, m0, br0⟩ := v
    rw [h] at hok
    simp only [Except.ok.injEq, Prod.mk.injEq] at hok
    have hinit : MapInv tok [] := ⟨List.nodup_nil, fun p hp => absurd hp (List.not_mem_nil p)⟩
    exact hok.2.1 ▸ cwrmLoop_map_inv tok l 0 [] [] f0 m0 br0 hinit h

/-- Every pair of the returned solvent-bridge list has the solvent token in
both labels. -/
lemma calc_sb_solvent (l : List Contact) (tok : String) (f : Nat)
    (m : List (String × List String)) (sb : List (String × String))
    (hok : calc_water_to_residues_map l tok = .ok (f, m, sb)) :
    ∀ p ∈ sb, strContains p.1 tok = true ∧ strContains p.2 tok = true := by
  obtain ⟨-, -, hsb⟩ := calc_ok_components l tok f m sb hok
  subst hsb
  intro p hp
  have hp' := (pysorted_perm pairLe _).mem_iff.mp hp
  rcases dedup_sub _ [] p hp' with h' | h'
  · cases h'
  · obtain ⟨c, hc, rfl⟩ := List.mem_map.mp h'
    have hb := List.of_mem_filter hc
    simp only [bothSolvent, Bool.and_eq_true] at hb
    exact hb

/-- The returned solvent-bridge list is duplicate-free. -/
lemma calc_sb_nodup (l : List Contact) (tok : String) (f : Nat)
    (m : List (String × List String)) (sb : List (String × String))
    (hok : calc_water_to_residues_map l tok = .ok (f, m, sb)) : sb.Nodup := by
  obtain ⟨-, -, hsb⟩ := calc_ok_components l tok f m sb hok
  subst hsb
  exact (pysorted_perm pairLe _).nodup_iff.mpr (dedup_nodup _ [] List.nodup_nil)

/-- A successful dictionary lookup returns a stored entry. -/
lemma dictGet_mem : ∀ (m : List (String × List String)) (w : String) (ps : List String),
    dictGet m w = some ps → (w, ps) ∈ m := by
  intro m
  induction m with
  | nil => intro w ps h; cases h
  | cons q t ih =>
    intro w ps h
    obtain ⟨k, v⟩ := q
    simp only [dictGet] at h
    by_cases hk : k = w
    · rw [if_pos hk] at h
      obtain rfl : v = ps := by injection h
      exact hk ▸ List.mem_cons_self _ _
    · rw [if_neg hk] at h
      exact List.mem_cons_of_mem _ (ih w ps h)

/-- With duplicate-free keys, every stored entry is found by lookup. -/
lemma mem_dictGet : ∀ (m : List (String × List String)),
    (m.map Prod.fst).Nodup → ∀ (w : String) (ps : List String),
    (w, ps) ∈ m → dictGet m w = some ps := by
  intro m
  induction m with
  | nil => intro _ w ps h; cases h
  | cons q t ih =>
    intro hnd w ps h
    obtain ⟨k, v⟩ := q
    rw [List.map_cons] at hnd
    obtain ⟨hk1, hk2⟩ := List.nodup_cons.mp hnd
    rcases List.mem_cons.mp h with heq | ht
    · obtain ⟨rfl, rfl⟩ := Prod.mk.injEq .. ▸ heq
      simp [dictGet]
    · have hkw : k ≠ w := by
        intro hc
        subst hc
        exact hk1 (List.mem_map.mpr ⟨(k, ps), ht, rfl⟩)
      simp only [dictGet, hkw, if_false]
      exact ih hk2 w ps ht

/-- Decomposition of a direct water-bridge record of one water's block. -/
lemma wbBlock_mem {frame : Nat} {p : String × List String} {r : Row}
    (h : r ∈ wbBlock frame p) :
    ∃ q, q ∈ combinations2 (pysorted strLe p.2) ∧ q.1 ≠ q.2 ∧
      r = wbRow frame q.1 q.2 p.1 := by
  obtain ⟨q, hq, hr⟩ := List.mem_filterMap.mp h
  by_cases hne : q.1 ≠ q.2
  · rw [if_pos hne] at hr
    obtain rfl : wbRow frame q.1 q.2 p.1 = r := by injection hr
    exact ⟨q, hq, hne, rfl⟩
  · rw [if_neg hne] at hr
    cases hr

/-- Every record of a water's block carries that water in field 4. -/
lemma wbBlock_pos4 {frame : Nat} {p : String × List String} {r : Row}
    (h : r ∈ wbBlock frame p) : r.getD 4 (Fld.s "") = Fld.s p.1 := by
  obtain ⟨q, -, -, rfl⟩ := wbBlock_mem h
  rfl

/-- A water's block of direct-bridge records is duplicate-free when the
water's partner list is. -/
lemma wbBlock_nodup (frame : Nat) (p : String × List String) (h : p.2.Nodup) :
    (wbBlock frame p).Nodup := by
  refine List.Nodup.filterMap ?_ (comb2_nodup _ ((pysorted_perm strLe p.2).nodup_iff.mpr h))
  intro a a' b hb hb'
  by_cases ha : a.1 ≠ a.2
  · rw [if_pos ha] at hb
    by_cases ha' : a'.1 ≠ a'.2
    · rw [if_pos ha'] at hb'
      simp only [Option.mem_def, Option.some.injEq] at hb hb'
      have := hb.trans hb'.symm
      simp only [wbRow, List.cons.injEq, Fld.s.injEq] at this
      exact Prod.ext (this.2.2.1) (this.2.2.2.1)
    · rw [if_neg ha'] at hb'; cases hb'
  · rw [if_neg ha] at hb; cases hb

/-- A `filterMap` that always succeeds is a `map`. -/
lemma filterMap_all_some (f : α → Option β) (g : α → β) :
    ∀ (l : List α), (∀ a ∈ l, f a = some (g a)) → l.filterMap f = l.map g := by
  intro l
  induction l with
  | nil => intro _; rfl
  | cons a t ih =>
    intro h
    rw [List.filterMap_cons, h a (List.mem_cons_self a t), List.map_cons,
      ih (fun b hb => h b (List.mem_cons_of_mem _ hb))]

/-- A water's block holds `C(k, 2)` records for its `k` distinct partners. -/
lemma wbBlock_length (frame : Nat) (p : String × List String) (h : p.2.Nodup) :
    (wbBlock frame p).length = Nat.choose p.2.length 2 := by
  have hsortnd : (pysorted strLe p.2).Nodup := (pysorted_perm strLe p.2).nodup_iff.mpr h
  unfold wbBlock
  rw [filterMap_all_some _ (fun q => wbRow frame q.1 q.2 p.1) _
    (fun q hq => if_pos (comb2_ne _ hsortnd q hq))]
  rw [List.length_map, comb2_length, (pysorted_perm strLe p.2).length_eq]

/-- The concatenation of all waters' direct-bridge blocks is duplicate-free
under the map invariant (blocks of distinct waters are separated by field 4). -/
lemma wbEntries_nodup (frame : Nat) (m : List (String × List String))
    (hkeys : (m.map Prod.fst).Nodup) (hvals : ∀ p ∈ m, p.2.Nodup) :
    ((m.map (wbBlock frame)).flatten).Nodup := by
  refine List.nodup_flatten.mpr ⟨?_, ?_⟩
  · intro b hb
    obtain ⟨p, hp, rfl⟩ := List.mem_map.mp hb
    exact wbBlock_nodup frame p (hvals p hp)
  · have hpw : m.Pairwise (fun p q => p.1 ≠ q.1) := List.pairwise_map.mp hkeys
    refine (List.pairwise_map.mpr (hpw.imp ?_))
    intro p q hne r hrp hrq
    have h1 := wbBlock_pos4 hrp
    have h2 := wbBlock_pos4 hrq
    rw [h1] at h2
    exact hne (by injection h2)

/-- If a water is not a key, no block of the map mentions it in field 4. -/
lemma wbEntries_filter_nil (frame : Nat) (t : List (String × List String)) (w : String)
    (hw : w ∉ t.map Prod.fst) :
    ((t.map (wbBlock frame)).flatten).filter
      (fun r => decide (r.getD 4 (Fld.s "") = Fld.s w)) = [] := by
  refine List.filter_eq_nil_iff.mpr ?_
  intro r hr
  obtain ⟨b, hb, hrb⟩ := List.mem_flatten.mp hr
  obtain ⟨p, hp, rfl⟩ := List.mem_map.mp hb
  have h4 := wbBlock_pos4 hrb
  simp only [h4, decide_eq_true_eq, Fld.s.injEq, Bool.not_eq_true, decide_eq_false_iff_not]
  intro hc
  exact hw (List.mem_map.mpr ⟨p, hp, hc⟩)

/-- Filtering the concatenated blocks for one water's field-4 label isolates
exactly that water's block. -/
lemma wbEntries_filter_length (frame : Nat) :
    ∀ (m : List (String × List String)), (m.map Prod.fst).Nodup →
      ∀ (w : String) (ps : List String), (w, ps) ∈ m →
      (((m.map (wbBlock frame)).flatten).filter
        (fun r => decide (r.getD 4 (Fld.s "") = Fld.s w))).length
        = (wbBlock frame (w, ps)).length := by
  intro m
  induction m with
  | nil => intro _ w ps h; cases h
  | cons p t ih =>
    intro hnd w ps hmem
    rw [List.map_cons] at hnd
    obtain ⟨hk1, hk2⟩ := List.nodup_cons.mp hnd
    rw [List.map_cons, List.flatten_cons, List.filter_append]
    rcases List.mem_cons.mp hmem with heq | hmem'
    · subst heq
      have hhead : (wbBlock frame (w, ps)).filter
          (fun r => decide (r.getD 4 (Fld.s "") = Fld.s w)) = wbBlock frame (w, ps) := by
        refine List.filter_eq_self.mpr ?_
        intro r hr
        exact decide_eq_true (wbBlock_pos4 hr)
      rw [hhead, wbEntries_filter_nil frame t w hk1]
      simp
    · have hpw : p.1 ≠ w := by
        intro hc
        exact hk1 (hc ▸ List.mem_map.mpr ⟨(w, ps), hmem', hc ▸ rfl⟩)
      have hhead : (wbBlock frame p).filter
          (fun r => decide (r.getD 4 (Fld.s "") = Fld.s w)) = [] := by
        refine List.filter_eq_nil_iff.mpr ?_
        intro r hr
        simp only [wbBlock_pos4 hr, decide_eq_true_eq, Fld.s.injEq, Bool.not_eq_true,
          decide_eq_false_iff_not]
        exact hpw
      rw [hhead, List.nil_append, ih hk2 w ps hmem']

/-- Claim C5: for every water in the water-to-residue map with `k` distinct
protein partners, the direct water-bridge output holds exactly `C(k, 2)`
records carrying that water (one per unordered pair of partners; the partner
list is duplicate-free, so its length is the number of distinct partners), and
no record anywhere in the output has the same residue atom on both sides. -/
theorem claim_C5 (l : List Contact) (tok : String) (f : Nat)
    (w2r : List (String × List String)) (sb : List (String × String)) (wb : List Row)
    (hmap : calc_water_to_residues_map l tok = .ok (f, w2r, sb))
    (hwb : stratify_water_bridge l tok = .ok wb) :
    (∀ p ∈ w2r, p.2.Nodup ∧
      (wb.filter (fun r => decide (r.getD 4 (Fld.s "") = Fld.s p.1))).length =
        Nat.choose p.2.length 2)
    ∧ ∀ r ∈ wb, r.getD 2 (Fld.s "") ≠ r.getD 3 (Fld.s "") := by
  obtain ⟨hkeys, hvals⟩ := calc_map_inv l tok f w2r sb hmap
  have hvnd : ∀ p ∈ w2r, p.2.Nodup := fun p hp => (hvals p hp).2.1
  unfold stratify_water_bridge at hwb
  rw [hmap] at hwb
  have hwb' : wb = pysorted rowLe (pysetOf ((w2r.map (wbBlock f)).flatten)) := by
    injection hwb with h
    exact h.symm
  have hset : pysetOf ((w2r.map (wbBlock f)).flatten) = (w2r.map (wbBlock f)).flatten :=
    pysetOf_eq_self _ (wbEntries_nodup f w2r hkeys hvnd)
  have hperm : wb.Perm ((w2r.map (wbBlock f)).flatten) := by
    rw [hwb', hset]
    exact pysorted_perm rowLe _
  constructor
  · intro p hp
    refine ⟨hvnd p hp, ?_⟩
    rw [(hperm.filter (fun r => decide (r.getD 4 (Fld.s "") = Fld.s p.1))).length_eq]
    obtain ⟨w, ps⟩ := p
    rw [wbEntries_filter_length f w2r hkeys w ps hp, wbBlock_length f (w, ps) (hvnd _ hp)]
  · intro r hr
    obtain ⟨b, hb, hrb⟩ := List.mem_flatten.mp (hperm.mem_iff.mp hr)
    obtain ⟨p, hp, rfl⟩ := List.mem_map.mp hb
    obtain ⟨q, hq, hne, rfl⟩ := wbBlock_mem hrb
    intro hc
    exact hne (by injection (show Fld.s q.1 = Fld.s q.2 from hc))

/-- Witness for C5: one water bonded to three distinct residues produces
exactly `C(3, 2) = 3` direct-bridge records. -/
theorem claim_C5_witness :
    (["A:ALA:1:N:10", "A:GLY:2:O:20", "A:SER:3:OG:30"] : List String).Nodup
    ∧ ([wbRow 0 "A:ALA:1:N:10" "A:GLY:2:O:20" "W:TIP3:5:OH2:50",
        wbRow 0 "A:ALA:1:N:10" "A:SER:3:OG:30" "W:TIP3:5:OH2:50",
        wbRow 0 "A:GLY:2:O:20" "A:SER:3:OG:30" "W:TIP3:5:OH2:50"].filter
          (fun r => decide (r.getD 4 (Fld.s "") = Fld.s "W:TIP3:5:OH2:50"))).length =
        Nat.choose 3 2 := by
  have h := claim_C5
    [⟨0, "W:TIP3:5:OH2:50", "A:ALA:1:N:10", "hb"⟩,
     ⟨0, "W:TIP3:5:OH2:50", "A:GLY:2:O:20", "hb"⟩,
     ⟨0, "W:TIP3:5:OH2:50", "A:SER:3:OG:30", "hb"⟩] "TIP3" 0
    [("W:TIP3:5:OH2:50", ["A:ALA:1:N:10", "A:GLY:2:O:20", "A:SER:3:OG:30"])] []
    [wbRow 0 "A:ALA:1:N:10" "A:GLY:2:O:20" "W:TIP3:5:OH2:50",
     wbRow 0 "A:ALA:1:N:10" "A:SER:3:OG:30" "W:TIP3:5:OH2:50",
     wbRow 0 "A:GLY:2:O:20" "A:SER:3:OG:30" "W:TIP3:5:OH2:50"] rfl rfl
  exact h.1 ("W:TIP3:5:OH2:50", ["A:ALA:1:N:10", "A:GLY:2:O:20", "A:SER:3:OG:30"])
    (List.mem_singleton_self _)

/-- Decomposition of an extended-bridge record of one solvent pair's block:
both waters are in the map and the two atoms come from their partner lists. -/
lemma wb2Block_mem {frame : Nat} {w2r : List (String × List String)}
    {p : String × String} {r : Row} (h : r ∈ wb2Block frame w2r p) :
    ∃ ps1 ps2 a1 a2, dictGet w2r p.1 = some ps1 ∧ dictGet w2r p.2 = some ps2 ∧
      a1 ∈ ps1 ∧ a2 ∈ ps2 ∧ r = wb2Row frame a1 a2 p.1 p.2 := by
  cases hg1 : dictGet w2r p.1 with
  | none => simp [wb2Block, hg1] at h
  | some ps1 =>
    cases hg2 : dictGet w2r p.2 with
    | none => simp [wb2Block, hg1, hg2] at h
    | some ps2 =>
      simp only [wb2Block, hg1, hg2] at h
      obtain ⟨b, hb, hrb⟩ := List.mem_flatten.mp h
      obtain ⟨a1, ha1, rfl⟩ := List.mem_map.mp hb
      obtain ⟨a2, ha2, rfl⟩ := List.mem_map.mp hrb
      exact ⟨ps1, ps2, a1, a2, rfl, rfl, ha1, ha2, rfl⟩

/-- Every record of a solvent pair's block carries the pair in fields 4, 5. -/
lemma wb2Block_pos {frame : Nat} {w2r : List (String × List String)}
    {p : String × String} {r : Row} (h : r ∈ wb2Block frame w2r p) :
    r.getD 4 (Fld.s "") = Fld.s p.1 ∧ r.getD 5 (Fld.s "") = Fld.s p.2 := by
  obtain ⟨ps1, ps2, a1, a2, -, -, -, -, rfl⟩ := wb2Block_mem h
  exact ⟨rfl, rfl⟩

/-- A solvent pair's block is duplicate-free when all partner lists are. -/
lemma wb2Block_nodup (frame : Nat) (w2r : List (String × List String))
    (p : String × String) (hvals : ∀ q ∈ w2r, q.2.Nodup) :
    (wb2Block frame w2r p).Nodup := by
  cases hg1 : dictGet w2r p.1 with
  | none => simp [wb2Block, hg1]
  | some ps1 =>
    cases hg2 : dictGet w2r p.2 with
    | none => simp [wb2Block, hg1, hg2]
    | some ps2 =>
      simp only [wb2Block, hg1, hg2]
      have hps1 : ps1.Nodup := hvals (p.1, ps1) (dictGet_mem w2r p.1 ps1 hg1)
      have hps2 : ps2.Nodup := hvals (p.2, ps2) (dictGet_mem w2r p.2 ps2 hg2)
      refine List.nodup_flatten.mpr ⟨?_, ?_⟩
      · intro b hb
        obtain ⟨a1, ha1, rfl⟩ := List.mem_map.mp hb
        refine hps2.map ?_
        intro a b hab
        simpa [wb2Row] using hab
      · refine List.pairwise_map.mpr (hps1.imp ?_)
        intro a b hab r hra hrb
        obtain ⟨x, hx, rfl⟩ := List.mem_map.mp hra
        obtain ⟨y, hy, he⟩ := List.mem_map.mp hrb
        apply hab
        have := he
        simp only [wb2Row, List.cons.injEq, Fld.s.injEq] at this
        exact this.2.2.1.symm

/-- A solvent pair's block holds one record per cross-product element. -/
lemma length_flatten_map (f : α → β → Row) (l2 : List β) :
    ∀ (l1 : List α),
      ((l1.map (fun a => l2.map (f a))).flatten).length = l1.length * l2.length := by
  intro l1
  induction l1 with
  | nil => simp
  | cons a t ih =>
    simp only [List.map_cons, List.flatten_cons, List.length_append, List.length_map, ih,
      List.length_cons, Nat.succ_mul]
    omega

/-- The length of a solvent pair's block is the product of the two partner
list lengths. -/
lemma wb2Block_length (frame : Nat) (w2r : List (String × List String))
    (p : String × String) (ps1 ps2 : List String)
    (h1 : dictGet w2r p.1 = some ps1) (h2 : dictGet w2r p.2 = some ps2) :
    (wb2Block frame w2r p).length = ps1.length * ps2.length := by
  simp only [wb2Block, h1, h2]
  exact length_flatten_map _ ps2 ps1

/-- The concatenation of all solvent pairs' blocks is duplicate-free. -/
lemma wb2Entries_nodup (frame : Nat) (w2r : List (String × List String))
    (sb : List (String × String)) (hvals : ∀ q ∈ w2r, q.2.Nodup) (hsb : sb.Nodup) :
    ((sb.map (wb2Block frame w2r)).flatten).Nodup := by
  refine List.nodup_flatten.mpr ⟨?_, ?_⟩
  · intro b hb
    obtain ⟨p, hp, rfl⟩ := List.mem_map.mp hb
    exact wb2Block_nodup frame w2r p hvals
  · refine List.pairwise_map.mpr (hsb.imp ?_)
    intro p q hne r hrp hrq
    obtain ⟨h1, h2⟩ := wb2Block_pos hrp
    obtain ⟨h3, h4⟩ := wb2Block_pos hrq
    rw [h1] at h3
    rw [h2] at h4
    exact hne (Prod.ext (by injection h3) (by injection h4))

/-- If a pair is not listed, no other pair's block matches it in fields 4, 5. -/
lemma wb2Entries_filter_nil (frame : Nat) (w2r : List (String × List String))
    (t : List (String × String)) (w1 w2 : String) (hnot : (w1, w2) ∉ t) :
    ((t.map (wb2Block frame w2r)).flatten).filter
      (fun r => decide (r.getD 4 (Fld.s "") = Fld.s w1) &&
        decide (r.getD 5 (Fld.s "") = Fld.s w2)) = [] := by
  refine List.filter_eq_nil_iff.mpr ?_
  intro r hr
  obtain ⟨b, hb, hrb⟩ := List.mem_flatten.mp hr
  obtain ⟨p, hp, rfl⟩ := List.mem_map.mp hb
  obtain ⟨h4, h5⟩ := wb2Block_pos hrb
  intro hc
  rw [Bool.and_eq_true, decide_eq_true_eq, decide_eq_true_eq] at hc
  obtain ⟨e4, e5⟩ := hc
  rw [h4] at e4
  rw [h5] at e5
  apply hnot
  have hp1 : p.1 = w1 := by injection e4
  have hp2 : p.2 = w2 := by injection e5
  rw [← hp1, ← hp2]
  exact hp

/-- Filtering the concatenated blocks for one solvent pair's field-4/field-5
labels isolates exactly that pair's block. -/
lemma wb2Entries_filter_length (frame : Nat) (w2r : List (String × List String)) :
    ∀ (sb : List (String × String)), sb.Nodup → ∀ (w1 w2 : String), (w1, w2) ∈ sb →
      (((sb.map (wb2Block frame w2r)).flatten).filter
        (fun r => decide (r.getD 4 (Fld.s "") = Fld.s w1) &&
          decide (r.getD 5 (Fld.s "") = Fld.s w2))).length
        = (wb2Block frame w2r (w1, w2)).length := by
  intro sb
  induction sb with
  | nil => intro _ w1 w2 h; cases h
  | cons p t ih =>
    intro hnd w1 w2 hmem
    obtain ⟨hp1, hp2⟩ := List.nodup_cons.mp hnd
    rw [List.map_cons, List.flatten_cons, List.filter_append]
    rcases List.mem_cons.mp hmem with heq | hmem'
    · subst heq
      have hhead : (wb2Block frame w2r (w1, w2)).filter
          (fun r => decide (r.getD 4 (Fld.s "") = Fld.s w1) &&
            decide (r.getD 5 (Fld.s "") = Fld.s w2)) = wb2Block frame w2r (w1, w2) := by
        refine List.filter_eq_self.mpr ?_
        intro r hr
        obtain ⟨h4, h5⟩ := wb2Block_pos hr
        rw [Bool.and_eq_true, decide_eq_true_eq, decide_eq_true_eq]
        exact ⟨h4, h5⟩
      rw [hhead, wb2Entries_filter_nil frame w2r t w1 w2 hp1]
      simp
    · have hne : p ≠ (w1, w2) := fun hc => hp1 (hc ▸ hmem')
      have hhead : (wb2Block frame w2r p).filter
          (fun r => decide (r.getD 4 (Fld.s "") = Fld.s w1) &&
            decide (r.getD 5 (Fld.s "") = Fld.s w2)) = [] := by
        refine List.filter_eq_nil_iff.mpr ?_
        intro r hr
        obtain ⟨h4, h5⟩ := wb2Block_pos hr
        intro hc
        rw [Bool.and_eq_true, decide_eq_true_eq, decide_eq_true_eq] at hc
        obtain ⟨e4, e5⟩ := hc
        rw [h4] at e4
        rw [h5] at e5
        apply hne
        have q1 : p.1 = w1 := by injection e4
        have q2 : p.2 = w2 := by injection e5
        rw [← q1, ← q2]
      rw [hhead, List.nil_append, ih hp2 w1 w2 hmem']

/-- Claim C6: extended water-bridge inference emits records only for
deduplicated solvent–solvent pairs whose two waters both appear in the
water-to-residue map (hence both have a nonempty partner list); for each such
pair it emits exactly one record per element of the cross product of the two
partner lists; and a water with no protein partner is referenced by no output
row in any field, provided it matches the solvent token (as any water in a
solvent–solvent bond does). -/
theorem claim_C6 (l : List Contact) (tok : String) (f : Nat)
    (w2r : List (String × List String)) (sb : List (String × String)) (rows : List Row)
    (hmap : calc_water_to_residues_map l tok = .ok (f, w2r, sb))
    (hrows : stratify_extended_water_bridge l tok = .ok rows) :
    (∀ r ∈ rows, ∃ w1 w2 ps1 ps2 a1 a2,
        (w1, w2) ∈ sb ∧ dictGet w2r w1 = some ps1 ∧ dictGet w2r w2 = some ps2 ∧
        ps1 ≠ [] ∧ ps2 ≠ [] ∧ a1 ∈ ps1 ∧ a2 ∈ ps2 ∧ r = wb2Row f a1 a2 w1 w2)
    ∧ (∀ w1 w2 ps1 ps2, (w1, w2) ∈ sb →
        dictGet w2r w1 = some ps1 → dictGet w2r w2 = some ps2 →
        (rows.filter (fun r => decide (r.getD 4 (Fld.s "") = Fld.s w1) &&
          decide (r.getD 5 (Fld.s "") = Fld.s w2))).length = ps1.length * ps2.length)
    ∧ (∀ w, strContains w tok = true → dictGet w2r w = none → ∀ r ∈ rows,
        ∃ a1 a2 w1 w2, r = wb2Row f a1 a2 w1 w2 ∧
          w ≠ a1 ∧ w ≠ a2 ∧ w ≠ w1 ∧ w ≠ w2) := by
  obtain ⟨hkeys, hvals⟩ := calc_map_inv l tok f w2r sb hmap
  have hvnd : ∀ p ∈ w2r, p.2.Nodup := fun p hp => (hvals p hp).2.1
  have hsbnd : sb.Nodup := calc_sb_nodup l tok f w2r sb hmap
  unfold stratify_extended_water_bridge at hrows
  rw [hmap] at hrows
  have hrows' : rows = pysorted rowLe (pysetOf ((sb.map (wb2Block f w2r)).flatten)) := by
    injection hrows with h
    exact h.symm
  have hset : pysetOf ((sb.map (wb2Block f w2r)).flatten) =
      (sb.map (wb2Block f w2r)).flatten :=
    pysetOf_eq_self _ (wb2Entries_nodup f w2r sb hvnd hsbnd)
  have hperm : rows.Perm ((sb.map (wb2Block f w2r)).flatten) := by
    rw [hrows', hset]
    exact pysorted_perm rowLe _
  have hdecomp : ∀ r ∈ rows, ∃ w1 w2 ps1 ps2 a1 a2,
      (w1, w2) ∈ sb ∧ dictGet w2r w1 = some ps1 ∧ dictGet w2r w2 = some ps2 ∧
      ps1 ≠ [] ∧ ps2 ≠ [] ∧ a1 ∈ ps1 ∧ a2 ∈ ps2 ∧ r = wb2Row f a1 a2 w1 w2 := by
    intro r hr
    obtain ⟨b, hb, hrb⟩ := List.mem_flatten.mp (hperm.mem_iff.mp hr)
    obtain ⟨p, hp, rfl⟩ := List.mem_map.mp hb
    obtain ⟨ps1, ps2, a1, a2, hg1, hg2, ha1, ha2, rfl⟩ := wb2Block_mem hrb
    have hne1 : ps1 ≠ [] := (hvals (p.1, ps1) (dictGet_mem w2r p.1 ps1 hg1)).1
    have hne2 : ps2 ≠ [] := (hvals (p.2, ps2) (dictGet_mem w2r p.2 ps2 hg2)).1
    exact ⟨p.1, p.2, ps1, ps2, a1, a2, by simpa using hp, hg1, hg2, hne1, hne2, ha1, ha2, rfl⟩
  refine ⟨hdecomp, ?_, ?_⟩
  · intro w1 w2 ps1 ps2 hmem hg1 hg2
    rw [(hperm.filter _).length_eq,
      wb2Entries_filter_length f w2r sb hsbnd w1 w2 hmem,
      wb2Block_length f w2r (w1, w2) ps1 ps2 hg1 hg2]
  · intro w hwtok hwnone r hr
    obtain ⟨w1, w2, ps1, ps2, a1, a2, hmem, hg1, hg2, -, -, ha1, ha2, rfl⟩ := hdecomp r hr
    refine ⟨a1, a2, w1, w2, rfl, ?_, ?_, ?_, ?_⟩
    · intro hc
      have := (hvals (w1, ps1) (dictGet_mem w2r w1 ps1 hg1)).2.2.2 a1 ha1
      rw [← hc] at this
      rw [hwtok] at this
      cases this
    · intro hc
      have := (hvals (w2, ps2) (dictGet_mem w2r w2 ps2 hg2)).2.2.2 a2 ha2
      rw [← hc] at this
      rw [hwtok] at this
      cases this
    · intro hc
      rw [← hc] at hg1
      rw [hwnone] at hg1
      cases hg1
    · intro hc
      rw [← hc] at hg2
      rw [hwnone] at hg2
      cases hg2

/-- Witness for C6: one solvent–solvent pair whose waters have one protein
partner each yields exactly `1 × 1` extended-bridge records. -/
theorem claim_C6_witness :
    ([wb2Row 0 "A:ALA:1:CB:15" "B:GLY:2:CA:25" "W:TIP3:6:OH2:60" "W:TIP3:7:OH2:70"].filter
      (fun r => decide (r.getD 4 (Fld.s "") = Fld.s "W:TIP3:6:OH2:60") &&
        decide (r.getD 5 (Fld.s "") = Fld.s "W:TIP3:7:OH2:70"))).length = 1 * 1 := by
  have h := claim_C6
    [⟨0, "W:TIP3:6:OH2:60", "A:ALA:1:CB:15", "hb"⟩,
     ⟨0, "W:TIP3:7:OH2:70", "B:GLY:2:CA:25", "hb"⟩,
     ⟨0, "W:TIP3:6:OH2:60", "W:TIP3:7:OH2:70", "hb"⟩] "TIP3" 0
    [("W:TIP3:6:OH2:60", ["A:ALA:1:CB:15"]), ("W:TIP3:7:OH2:70", ["B:GLY:2:CA:25"])]
    [("W:TIP3:6:OH2:60", "W:TIP3:7:OH2:70")]
    [wb2Row 0 "A:ALA:1:CB:15" "B:GLY:2:CA:25" "W:TIP3:6:OH2:60" "W:TIP3:7:OH2:70"]
    rfl rfl
  exact h.2.1 "W:TIP3:6:OH2:60" "W:TIP3:7:OH2:70" ["A:ALA:1:CB:15"] ["B:GLY:2:CA:25"]
    (List.mem_singleton_self _) rfl rfl

/-- Claim C3, amended: every extended water-bridge output row has exactly six
fields in the order `(frame, type tag "wb2", atom1, atom2, water1, water2)` —
the type tag sits in the second position and the two waters come **after**
both residue atoms, not between them as the claim's order
`(frame, atom1, water1, water2, atom2)` states.  Extended rows carry six
fields, one more than the five-field simple water-bridge rows. -/
theorem claim_C3 (l : List Contact) (tok : String) (rows : List Row)
    (hrows : stratify_extended_water_bridge l tok = .ok rows) :
    (∀ r ∈ rows, (∃ f a1 a2 w1 w2, r = wb2Row f a1 a2 w1 w2) ∧ r.length = 6)
    ∧ ∀ wb, stratify_water_bridge l tok = .ok wb → ∀ r ∈ wb, r.length = 5 := by
  constructor
  · unfold stratify_extended_water_bridge at hrows
    cases hc : calc_water_to_residues_map l tok with
    | error e => rw [hc] at hrows; cases hrows
    | ok v =>
      obtain ⟨f, w2r, sb⟩ := v
      rw [hc] at hrows
      have hrows' : rows = pysorted rowLe (pysetOf ((sb.map (wb2Block f w2r)).flatten)) := by
        injection hrows with h
        exact h.symm
      intro r hr
      rw [hrows'] at hr
      have hr2 := pysetOf_sub _ r ((pysorted_perm rowLe _).mem_iff.mp hr)
      obtain ⟨b, hb, hrb⟩ := List.mem_flatten.mp hr2
      obtain ⟨p, hp, rfl⟩ := List.mem_map.mp hb
      obtain ⟨ps1, ps2, a1, a2, -, -, -, -, rfl⟩ := wb2Block_mem hrb
      exact ⟨⟨f, a1, a2, p.1, p.2, rfl⟩, rfl⟩
  · intro wb hwb r hr
    unfold stratify_water_bridge at hwb
    cases hc : calc_water_to_residues_map l tok with
    | error e => rw [hc] at hwb; cases hwb
    | ok v =>
      obtain ⟨f, w2r, sb⟩ := v
      rw [hc] at hwb
      have hwb' : wb = pysorted rowLe (pysetOf ((w2r.map (wbBlock f)).flatten)) := by
        injection hwb with h
        exact h.symm
      rw [hwb'] at hr
      have hr2 := pysetOf_sub _ r ((pysorted_perm rowLe _).mem_iff.mp hr)
      obtain ⟨b, hb, hrb⟩ := List.mem_flatten.mp hr2
      obtain ⟨p, hp, rfl⟩ := List.mem_map.mp hb
      obtain ⟨q, -, -, rfl⟩ := wbBlock_mem hrb
      rfl

/-- Witness for C3: a concrete batch producing one extended-bridge row of six
fields and one batch-wide check that simple rows have five fields. -/
theorem claim_C3_witness :
    ((∃ f a1 a2 w1 w2,
        wb2Row 0 "A:ALA:1:CB:16" "B:GLY:2:CA:26" "W:TIP3:6:OH2:61" "W:TIP3:7:OH2:71" =
          wb2Row f a1 a2 w1 w2) ∧
      (wb2Row 0 "A:ALA:1:CB:16" "B:GLY:2:CA:26" "W:TIP3:6:OH2:61"
        "W:TIP3:7:OH2:71").length = 6) := by
  have h := claim_C3
    [⟨0, "W:TIP3:6:OH2:61", "A:ALA:1:CB:16", "hb"⟩,
     ⟨0, "W:TIP3:7:OH2:71", "B:GLY:2:CA:26", "hb"⟩,
     ⟨0, "W:TIP3:6:OH2:61", "W:TIP3:7:OH2:71", "hb"⟩] "TIP3"
    [wb2Row 0 "A:ALA:1:CB:16" "B:GLY:2:CA:26" "W:TIP3:6:OH2:61" "W:TIP3:7:OH2:71"] rfl
  exact h.1 _ (List.mem_singleton_self _)

/-- Counterexample to C3 as stated: on a concrete batch, the single extended
water-bridge row is `[frame, "wb2", atom1, atom2, water1, water2]`, which
differs from the claimed participant order `(frame, atom1, water1, water2,
atom2)` under either reading of where the type tag sits. -/
theorem claim_C3_counterexample :
    stratify_extended_water_bridge
      [⟨0, "W:TIP3:6:OH2:62", "A:ALA:1:CB:17", "hb"⟩,
       ⟨0, "W:TIP3:7:OH2:72", "B:GLY:2:CA:27", "hb"⟩,
       ⟨0, "W:TIP3:6:OH2:62", "W:TIP3:7:OH2:72", "hb"⟩] "TIP3" =
      .ok [[Fld.i 0, Fld.s "wb2", Fld.s "A:ALA:1:CB:17", Fld.s "B:GLY:2:CA:27",
            Fld.s "W:TIP3:6:OH2:62", Fld.s "W:TIP3:7:OH2:72"]]
    ∧ [Fld.i 0, Fld.s "wb2", Fld.s "A:ALA:1:CB:17", Fld.s "B:GLY:2:CA:27",
       Fld.s "W:TIP3:6:OH2:62", Fld.s "W:TIP3:7:OH2:72"] ≠
      [Fld.i 0, Fld.s "wb2", Fld.s "A:ALA:1:CB:17", Fld.s "W:TIP3:6:OH2:62",
       Fld.s "W:TIP3:7:OH2:72", Fld.s "B:GLY:2:CA:27"]
    ∧ [Fld.i 0, Fld.s "wb2", Fld.s "A:ALA:1:CB:17", Fld.s "B:GLY:2:CA:27",
       Fld.s "W:TIP3:6:OH2:62", Fld.s "W:TIP3:7:OH2:72"] ≠
      [Fld.i 0, Fld.s "A:ALA:1:CB:17", Fld.s "W:TIP3:6:OH2:62",
       Fld.s "W:TIP3:7:OH2:72", Fld.s "B:GLY:2:CA:27", Fld.s "wb2"] :=
  ⟨rfl, by decide, by decide⟩

/-- `stratify_water_bridge` on a successful map computation. -/
lemma stratify_water_bridge_ok (l : List Contact) (tok : String) (f : Nat)
    (w2r : List (String × List String)) (sb : List (String × String))
    (h : calc_water_to_residues_map l tok = .ok (f, w2r, sb)) :
    stratify_water_bridge l tok =
      .ok (pysorted rowLe (pysetOf ((w2r.map (wbBlock f)).flatten))) := by
  unfold stratify_water_bridge
  rw [h]

/-- `stratify_extended_water_bridge` on a successful map computation. -/
lemma stratify_wb2_ok (l : List Contact) (tok : String) (f : Nat)
    (w2r : List (String × List String)) (sb : List (String × String))
    (h : calc_water_to_residues_map l tok = .ok (f, w2r, sb)) :
    stratify_extended_water_bridge l tok =
      .ok (pysorted rowLe (pysetOf ((sb.map (wb2Block f w2r)).flatten))) := by
  unfold stratify_extended_water_bridge
  rw [h]

/-- Claim C7, amended: for an input where one water `W1` hydrogen-bonds to two
distinct residues `R1`, `R2` in frame `f` and the solvent token matches `W1`'s
label but neither residue label, stratification returns exactly one
water-bridge row — `[f, "wb", Ra, Rb, W1]` with `(Ra, Rb)` the sort-canonical
order of `(R1, R2)` — and zero sidechain/backbone rows.  The row carries the
bridging water's label as its fifth field, which the claim's four-field row
`[f, "wb", R1, R2]` omits. -/
theorem claim_C7 (f : Nat) (W1 R1 R2 tok : String)
    (hW : strContains W1 tok = true)
    (hR1 : strContains R1 tok = false)
    (hR2 : strContains R2 tok = false)
    (hne : R1 ≠ R2) :
    stratify_hbond_subtypes [⟨f, W1, R1, "hb"⟩, ⟨f, W1, R2, "hb"⟩] tok =
      .ok [if strLe R1 R2 = true then wbRow f R1 R2 W1 else wbRow f R2 R1 W1] := by
  have hsplit : residue_vs_water_hbonds [⟨f, W1, R1, "hb"⟩, ⟨f, W1, R2, "hb"⟩] tok =
      ([], [⟨f, W1, R1, "hb"⟩, ⟨f, W1, R2, "hb"⟩]) := by
    simp [residue_vs_water_hbonds, hW]
  have hcalc : calc_water_to_residues_map [⟨f, W1, R1, "hb"⟩, ⟨f, W1, R2, "hb"⟩] tok =
      .ok (f, [(W1, [R1, R2])], []) := by
    have hloop : cwrmLoop tok 0 [] [] [⟨f, W1, R1, "hb"⟩, ⟨f, W1, R2, "hb"⟩] =
        .ok (f, [(W1, [R1, R2])], []) := by
      simp [cwrmLoop, hW, hR1, hR2, addToMap, Ne.symm hne]
    unfold calc_water_to_residues_map
    rw [hloop]
    rfl
  have hwb2line : stratify_extended_water_bridge
      [⟨f, W1, R1, "hb"⟩, ⟨f, W1, R2, "hb"⟩] tok = .ok [] := by
    rw [stratify_wb2_ok _ tok f [(W1, [R1, R2])] [] hcalc]
    rfl
  cases hle : strLe R1 R2 with
  | true =>
    have hsort : pysorted strLe [R1, R2] = [R1, R2] := by
      simp [pysorted, insertSorted, hle]
    have hblock : wbBlock f (W1, [R1, R2]) = [wbRow f R1 R2 W1] := by
      show (combinations2 (pysorted strLe [R1, R2])).filterMap
          (fun q => if q.1 ≠ q.2 then some (wbRow f q.1 q.2 W1) else none) =
        [wbRow f R1 R2 W1]
      rw [hsort]
      simp [combinations2, hne]
    have hwbline : stratify_water_bridge
        [⟨f, W1, R1, "hb"⟩, ⟨f, W1, R2, "hb"⟩] tok = .ok [wbRow f R1 R2 W1] := by
      rw [stratify_water_bridge_ok _ tok f [(W1, [R1, R2])] [] hcalc]
      simp [hblock, pysetOf, setInsert, pysorted, insertSorted]
    unfold stratify_hbond_subtypes
    rw [hsplit]
    simp only [hwbline, hwb2line]
    simp [stratify_residue_hbonds]
  | false =>
    have hsort : pysorted strLe [R1, R2] = [R2, R1] := by
      simp [pysorted, insertSorted, hle]
    have hblock : wbBlock f (W1, [R1, R2]) = [wbRow f R2 R1 W1] := by
      show (combinations2 (pysorted strLe [R1, R2])).filterMap
          (fun q => if q.1 ≠ q.2 then some (wbRow f q.1 q.2 W1) else none) =
        [wbRow f R2 R1 W1]
      rw [hsort]
      simp [combinations2, Ne.symm hne]
    have hwbline : stratify_water_bridge
        [⟨f, W1, R1, "hb"⟩, ⟨f, W1, R2, "hb"⟩] tok = .ok [wbRow f R2 R1 W1] := by
      rw [stratify_water_bridge_ok _ tok f [(W1, [R1, R2])] [] hcalc]
      simp [hblock, pysetOf, setInsert, pysorted, insertSorted]
    unfold stratify_hbond_subtypes
    rw [hsplit]
    simp only [hwbline, hwb2line]
    simp [stratify_residue_hbonds]

/-- Witness for C7's amended statement, at the spec's §8 example labels in
frame 3. -/
theorem claim_C7_witness :
    stratify_hbond_subtypes
      [⟨3, "W:TIP3:1:OH2:300", "A:ASP:12:OD1:100", "hb"⟩,
       ⟨3, "W:TIP3:1:OH2:300", "A:ARG:50:NH1:200", "hb"⟩] "TIP3" =
      .ok [if strLe "A:ASP:12:OD1:100" "A:ARG:50:NH1:200" = true
           then wbRow 3 "A:ASP:12:OD1:100" "A:ARG:50:NH1:200" "W:TIP3:1:OH2:300"
           else wbRow 3 "A:ARG:50:NH1:200" "A:ASP:12:OD1:100" "W:TIP3:1:OH2:300"] :=
  claim_C7 3 "W:TIP3:1:OH2:300" "A:ASP:12:OD1:100" "A:ARG:50:NH1:200" "TIP3"
    rfl rfl rfl (by decide)

/-- Counterexample to C7 as stated: for water `W:TIP3:1:OH2:300` bonded to
residues `A:ASP:12:OD1:100` and `A:ARG:50:NH1:200` in frame 3, the single
returned row is the five-field `[3, "wb", R2, R1, W1]` (canonically sorted
residues, water last), not the claimed four-field `[3, "wb", R1, R2]` in
either residue order. -/
theorem claim_C7_counterexample :
    stratify_hbond_subtypes
      [⟨3, "W:TIP3:1:OH2:300", "A:ASP:12:OD1:100", "hb"⟩,
       ⟨3, "W:TIP3:1:OH2:300", "A:ARG:50:NH1:200", "hb"⟩] "TIP3" =
      .ok [[Fld.i 3, Fld.s "wb", Fld.s "A:ARG:50:NH1:200", Fld.s "A:ASP:12:OD1:100",
            Fld.s "W:TIP3:1:OH2:300"]]
    ∧ [Fld.i 3, Fld.s "wb", Fld.s "A:ARG:50:NH1:200", Fld.s "A:ASP:12:OD1:100",
       Fld.s "W:TIP3:1:OH2:300"] ≠
      [Fld.i 3, Fld.s "wb", Fld.s "A:ASP:12:OD1:100", Fld.s "A:ARG:50:NH1:200"]
    ∧ [Fld.i 3, Fld.s "wb", Fld.s "A:ARG:50:NH1:200", Fld.s "A:ASP:12:OD1:100",
       Fld.s "W:TIP3:1:OH2:300"] ≠
      [Fld.i 3, Fld.s "wb", Fld.s "A:ARG:50:NH1:200", Fld.s "A:ASP:12:OD1:100"] :=
  ⟨rfl, by decide, by decide⟩

/-- A dot product of a vector with itself is nonnegative. -/
lemma dot3_self_nonneg (v : Vec3) : 0 ≤ dot3 v v := by
  unfold dot3
  nlinarith [mul_self_nonneg v.x, mul_self_nonneg v.y, mul_self_nonneg v.z]

/-- A nonzero vector has positive self dot product. -/
lemma dot3_self_pos (v : Vec3) (h : v ≠ Vec3.zero) : 0 < dot3 v v := by
  rcases lt_or_eq_of_le (dot3_self_nonneg v) with hlt | heq
  · exact hlt
  · exfalso
    apply h
    have heq' : v.x * v.x + v.y * v.y + v.z * v.z = 0 := by
      have h0 := heq.symm
      unfold dot3 at h0
      linarith
    have hx : v.x * v.x = 0 := by
      nlinarith [mul_self_nonneg v.x, mul_self_nonneg v.y, mul_self_nonneg v.z]
    have hy : v.y * v.y = 0 := by
      nlinarith [mul_self_nonneg v.x, mul_self_nonneg v.y, mul_self_nonneg v.z]
    have hz : v.z * v.z = 0 := by
      nlinarith [mul_self_nonneg v.x, mul_self_nonneg v.y, mul_self_nonneg v.z]
    ext
    · exact mul_self_eq_zero.mp hx
    · exact mul_self_eq_zero.mp hy
    · exact mul_self_eq_zero.mp hz

/-- Cauchy–Schwarz for 3-vectors, via the Lagrange identity. -/
lemma cauchy3 (v w : Vec3) : (dot3 v w) ^ 2 ≤ (dot3 v v) * (dot3 w w) := by
  unfold dot3
  nlinarith [sq_nonneg (v.x * w.y - v.y * w.x), sq_nonneg (v.x * w.z - v.z * w.x),
    sq_nonneg (v.y * w.z - v.z * w.y)]

/-- The squared vector length is the self dot product. -/
lemma len_sq (v : Vec3) : (calc_vector_length v) ^ 2 = dot3 v v :=
  Real.sq_sqrt (dot3_self_nonneg v)

/-- A nonzero vector has positive length. -/
lemma len_pos (v : Vec3) (h : v ≠ Vec3.zero) : 0 < calc_vector_length v :=
  Real.sqrt_pos.mpr (dot3_self_pos v h)

/-- A vector of zero length is the zero vector, so its dot product with
anything vanishes. -/
lemma dot3_zero_of_len_zero_left (v1 v2 : Vec3) (h : calc_vector_length v1 = 0) :
    dot3 v1 v2 = 0 := by
  have hv : v1 = Vec3.zero := by
    by_contra hc
    exact absurd h (ne_of_gt (len_pos v1 hc))
  subst hv
  simp [dot3, Vec3.zero]

/-- A vector of zero length is the zero vector, symmetric variant. -/
lemma dot3_zero_of_len_zero_right (v1 v2 : Vec3) (h : calc_vector_length v2 = 0) :
    dot3 v1 v2 = 0 := by
  have hv : v2 = Vec3.zero := by
    by_contra hc
    exact absurd h (ne_of_gt (len_pos v2 hc))
  subst hv
  simp [dot3, Vec3.zero]

/-- Claim C10 documents a code bug.  The claim's first half holds: for nonzero
3-vectors, the angle primitive returns `arccos(dot(v1,v2) / (|v1|·|v2|))` in
degrees, a value in `[0, 180]`.  Its error-handling half does not: for a
zero-length input vector the dot product is 0 and the denominator is 0, numpy
division yields NaN instead of raising, `math.acos(NaN)` is NaN, and the
primitive **returns** NaN — it never fails with a DomainError on that path,
contrary to the claim's "it never returns a value in that case". -/
theorem claim_C10 (v1 v2 : Vec3) :
    (v1 ≠ Vec3.zero → v2 ≠ Vec3.zero →
      ∃ r, calc_angle_between_vectors v1 v2 = Except.ok (NpVal.fin r) ∧
        r = Real.arccos (dot3 v1 v2 / (calc_vector_length v1 * calc_vector_length v2)) *
          180 / Real.pi ∧
        0 ≤ r ∧ r ≤ 180)
    ∧ ((calc_vector_length v1 = 0 ∨ calc_vector_length v2 = 0) →
      calc_angle_between_vectors v1 v2 = Except.ok NpVal.nan) := by
  constructor
  · intro h1 h2
    have hL : 0 < calc_vector_length v1 * calc_vector_length v2 :=
      mul_pos (len_pos v1 h1) (len_pos v2 h2)
    have hsq : (dot3 v1 v2) ^ 2 ≤ (calc_vector_length v1 * calc_vector_length v2) ^ 2 := by
      calc (dot3 v1 v2) ^ 2 ≤ (dot3 v1 v1) * (dot3 v2 v2) := cauchy3 v1 v2
        _ = (calc_vector_length v1 * calc_vector_length v2) ^ 2 := by
            rw [mul_pow, len_sq v1, len_sq v2]
    have hub : dot3 v1 v2 ≤ calc_vector_length v1 * calc_vector_length v2 := by
      nlinarith
    have hlb : -(calc_vector_length v1 * calc_vector_length v2) ≤ dot3 v1 v2 := by
      nlinarith
    have ht1 : -1 ≤ dot3 v1 v2 / (calc_vector_length v1 * calc_vector_length v2) :=
      (le_div_iff₀ hL).mpr (by linarith)
    have ht2 : dot3 v1 v2 / (calc_vector_length v1 * calc_vector_length v2) ≤ 1 :=
      (div_le_one hL).mpr hub
    have hdiv : npdiv (dot3 v1 v2) (calc_vector_length v1 * calc_vector_length v2) =
        .fin (dot3 v1 v2 / (calc_vector_length v1 * calc_vector_length v2)) := by
      unfold npdiv
      rw [if_neg (ne_of_gt hL)]
    have hacos : pyacos (NpVal.fin
        (dot3 v1 v2 / (calc_vector_length v1 * calc_vector_length v2))) =
        .ok (.fin (Real.arccos
          (dot3 v1 v2 / (calc_vector_length v1 * calc_vector_length v2)))) := by
      show (if (dot3 v1 v2 / (calc_vector_length v1 * calc_vector_length v2)) < -1 ∨
          1 < dot3 v1 v2 / (calc_vector_length v1 * calc_vector_length v2) then
          (Except.error "math domain error" : Except String NpVal)
        else .ok (.fin (Real.arccos
          (dot3 v1 v2 / (calc_vector_length v1 * calc_vector_length v2))))) = _
      rw [if_neg ?_]
      intro hc
      rcases hc with hc | hc
      · linarith
      · linarith
    have hfull : calc_angle_between_vectors v1 v2 =
        .ok (pydegrees (.fin (Real.arccos
          (dot3 v1 v2 / (calc_vector_length v1 * calc_vector_length v2))))) := by
      unfold calc_angle_between_vectors
      rw [hdiv, hacos]
    refine ⟨_, hfull, rfl, ?_, ?_⟩
    · have := Real.arccos_nonneg
        (dot3 v1 v2 / (calc_vector_length v1 * calc_vector_length v2))
      have hpi := Real.pi_pos
      positivity
    · have harc := Real.arccos_le_pi
        (dot3 v1 v2 / (calc_vector_length v1 * calc_vector_length v2))
      rw [div_le_iff₀ Real.pi_pos]
      nlinarith [Real.pi_pos]
  · intro h
    have hdot : dot3 v1 v2 = 0 := by
      rcases h with h | h
      · exact dot3_zero_of_len_zero_left v1 v2 h
      · exact dot3_zero_of_len_zero_right v1 v2 h
    have hz : calc_vector_length v1 * calc_vector_length v2 = 0 := by
      rcases h with h | h <;> rw [h] <;> ring
    have hdiv : npdiv (dot3 v1 v2) (calc_vector_length v1 * calc_vector_length v2) =
        NpVal.nan := by
      unfold npdiv
      rw [if_pos hz, if_pos hdot]
    unfold calc_angle_between_vectors
    rw [hdiv]
    rfl

/-- Witness for C10, at the failing input of the code bug: a zero-length first
vector makes the angle primitive return NaN rather than fail. -/
theorem claim_C10_witness :
    calc_angle_between_vectors ⟨0, 0, 0⟩ ⟨1, 0, 0⟩ = Except.ok NpVal.nan := by
  refine (claim_C10 ⟨0, 0, 0⟩ ⟨1, 0, 0⟩).2 (Or.inl ?_)
  show Real.sqrt (dot3 ⟨0, 0, 0⟩ ⟨0, 0, 0⟩) = 0
  simp [dot3, Real.sqrt_zero]
